import Mathlib

/-!
# Verification of the taskporter configuration-translation engine

A shallow embedding, in Lean 4, of the core of `taskporter`: the canonical
task model, the JSONC comment stripper, the JetBrains run-configuration
parser, the VSCode launch parser, the type classifiers, the placeholder
variable translators, and the four batch converters.  Pure functions of the
Go source are translated function-by-function; file-system effects
(directory creation, file writes) are reified as explicit lists of intended
effects so that dry-run and merge-cardinality properties can be stated.

Conventions used throughout:
* Go `string` is Lean `String`; character-level scanners operate on
  `List Char` (`String.data`).  The Go code scans bytes, but every byte it
  compares against is ASCII, so byte-level and character-level scanning
  agree on all inputs.
* Go `map[string]string` is modelled as an association list
  `List (String × String)` with unique keys; where the Go code iterates a
  map (whose order is unspecified) the model iterates the list in order,
  and where the Go code sorts the keys first the model sorts as well.
* Go slices are Lean lists; a `nil` slice and an empty slice are both `[]`.
* `filepath.Join` / `filepath.IsAbs` / `filepath.Dir` are modelled
  lexically for `/`-separated paths (Go's `Clean` normalisation is not
  reproduced; no claim here depends on it).
-/

/-! ## Character constants (named to keep scanners readable) -/

def spaceChar : Char := Char.ofNat 32
def dquoteChar : Char := Char.ofNat 34
def squoteChar : Char := Char.ofNat 39
def bslashChar : Char := Char.ofNat 92
def nlChar : Char := Char.ofNat 10
def crChar : Char := Char.ofNat 13
def tabChar : Char := Char.ofNat 9
def nulChar : Char := Char.ofNat 0

/-! ## String helpers modelling Go's `strings` / `filepath` packages -/

/-- `isPrefixOfB pat l` : Boolean test that `pat` is a prefix of `l`. -/
def isPrefixOfB : List Char → List Char → Bool
  | [], _ => true
  | _ :: _, [] => false
  | p :: ps, c :: cs => if p = c then isPrefixOfB ps cs else false

/-- `containsSubB l pat` : `pat` occurs as a contiguous substring of `l`
(model of Go `strings.Contains` at character level). -/
def containsSubB : List Char → List Char → Bool
  | [], pat => isPrefixOfB pat []
  | c :: rest, pat => isPrefixOfB pat (c :: rest) || containsSubB rest pat

/-- Model of Go `strings.Contains`. -/
def containsStr (s pat : String) : Bool := containsSubB s.data pat.data

/-- Model of Go `strings.HasPrefix`. -/
def startsWithStr (s pat : String) : Bool := isPrefixOfB pat.data s.data

/-- Model of Go `strings.HasSuffix`. -/
def endsWithStr (s pat : String) : Bool := isPrefixOfB pat.data.reverse s.data.reverse

/-- Model of Go `strings.ToLower` (ASCII lowering, as `Char.toLower`). -/
def toLowerStr (s : String) : String := String.mk (s.data.map Char.toLower)

/-- Whitespace test used by Go `strings.Fields` (ASCII cases). -/
def isSpaceChar (c : Char) : Bool :=
  c = spaceChar || c = tabChar || c = nlChar || c = crChar

/-- Accumulator pass behind `fieldsStr`. -/
def fieldsAux : List Char → List Char → List (List Char)
  | [], cur => if cur = [] then [] else [cur]
  | c :: rest, cur =>
    if isSpaceChar c then
      if cur = [] then fieldsAux rest [] else cur :: fieldsAux rest []
    else fieldsAux rest (cur ++ [c])

/-- Model of Go `strings.Fields`: split around runs of whitespace, no empty
fields. -/
def fieldsStr (s : String) : List String := (fieldsAux s.data []).map String.mk

/-- Model of Go `strings.Join(l, " ")` via `String.intercalate`. -/
def joinSpace (l : List String) : String := String.intercalate " " l

/-- Lexical model of `filepath.Join` for two segments. -/
def joinPath (a b : String) : String := a ++ "/" ++ b

/-- Model of `filepath.IsAbs` on Unix. -/
def isAbsStr (s : String) : Bool := startsWithStr s "/"

/-- Lexical model of `filepath.Dir`: everything before the last `/`. -/
def dirName (s : String) : String :=
  let parts := s.splitOn "/"
  if parts.length ≤ 1 then "." else String.intercalate "/" parts.dropLast

/-- Model of Go `strings.Trim(s, "\"")`: strip leading and trailing
double-quote characters. -/
def trimQuotes (s : String) : String :=
  String.mk (((s.data.dropWhile (· = dquoteChar)).reverse.dropWhile (· = dquoteChar)).reverse)

/-- `stripPrefixQ pat l` : if `pat` is a prefix of `l`, the remainder of `l`
after it. -/
def stripPrefixQ : List Char → List Char → Option (List Char)
  | [], l => some l
  | _ :: _, [] => none
  | p :: ps, c :: cs => if p = c then stripPrefixQ ps cs else none

/-- Leftmost, non-overlapping replacement of a non-empty pattern: on a
match, skip the whole pattern; otherwise advance one character.  The fuel
argument (instantiated with the input length, an upper bound on the number
of steps) only makes the recursion structural. -/
def replaceAllAux (pat repl : List Char) : Nat → List Char → List Char
  | _, [] => []
  | 0, l => l
  | fuel + 1, c :: rest =>
    match stripPrefixQ pat (c :: rest) with
    | some rem => repl ++ replaceAllAux pat repl fuel rem
    | none => c :: replaceAllAux pat repl fuel rest

/-- Model of Go `strings.ReplaceAll` (all patterns used by the source are
non-empty). -/
def replaceAll (s pat repl : String) : String :=
  String.mk (replaceAllAux pat.data repl.data s.data.length s.data)

/-! ## `stripJSONComments` (src/internal/parser/vscode, JSONC support)

The Go function is a single scan over the bytes with an index `i` that the
comment branches advance past the comment body (line comments stop just
before the terminating `\n`/`\r`; block comments stop after the first
`*/`).  The embedding below is the same automaton written as a structural
recursion: the `lineComment` / `blockComment` modes play the role of the Go
inner skip loops, `blockCommentStart` consumes the `*` of the opening
`/*` (the second half of Go's `i += 2`) and `blockCommentEnd` consumes the
`/` of the closing `*/`.  Go quirks are reproduced exactly: the line
terminator itself is re-processed normally (hence copied); a block comment
that reaches the end of input with exactly one character left re-processes
that character normally (the Go `i--` / `i++` dance) — in normal mode with
nothing following, every character is simply copied, which the `[c]`
result mirrors. -/

inductive StripMode where
  | normal (inString : Bool) (escaped : Bool)
  | lineComment
  | blockCommentStart
  | blockComment
  | blockCommentEnd
deriving DecidableEq

def stripSM : StripMode → List Char → List Char
  | _, [] => []
  | mode, c :: rest =>
    match mode with
    | .lineComment =>
      if c = nlChar || c = crChar then c :: stripSM (.normal false false) rest
      else stripSM .lineComment rest
    | .blockCommentStart => stripSM .blockComment rest
    | .blockComment =>
      if rest.head? = none then [c]
      else if c = '*' && rest.head? = some '/' then stripSM .blockCommentEnd rest
      else stripSM .blockComment rest
    | .blockCommentEnd => stripSM (.normal false false) rest
    | .normal inString escaped =>
      if inString && escaped then c :: stripSM (.normal inString false) rest
      else if c = dquoteChar && !escaped then c :: stripSM (.normal (!inString) escaped) rest
      else if inString && c = bslashChar then c :: stripSM (.normal inString true) rest
      else if inString then c :: stripSM (.normal inString escaped) rest
      else if c = '/' && rest.head? = some '/' then stripSM .lineComment rest
      else if c = '/' && rest.head? = some '*' then stripSM .blockCommentStart rest
      else c :: stripSM (.normal inString escaped) rest

/-- `stripJSONComments` from the JSONC helper: remove `//` line comments and
`/* */` block comments outside string literals. -/
def stripJSONComments (s : List Char) : List Char := stripSM (.normal false false) s

/-- String-level wrapper matching the Go signature. -/
def stripJSONCommentsStr (s : String) : String := String.mk (stripJSONComments s.data)

example : stripJSONCommentsStr "\x7b\"a\": 1\x7d // x" = "\x7b\"a\": 1\x7d " := by decide
example : stripJSONCommentsStr "a/*b*/c" = "ac" := by decide
example : stripJSONCommentsStr "\"http://x\"" = "\"http://x\"" := by decide
example : stripJSONCommentsStr "\"a\\\"b\"//c" = "\"a\\\"b\"" := by decide

/-! ### Specification layer for the comment stripper

A well-formed JSON-with-comments document is tokenised as a list of
segments: complete double-quoted string literals (whose bodies are
sequences of normal characters and backslash escape pairs), `//` line
comments, `/* */` block comments, and single free characters.  `renderSegs`
is the concrete text of such a tokenisation and `eraseSegs` is the intended
result of stripping: string literals and free characters byte-identical,
comments gone (a line comment's terminating newline is a free character of
its own, which stripping keeps). -/

inductive StrItem where
  | norm (c : Char)
  | esc (c : Char)
deriving DecidableEq

def renderItem : StrItem → List Char
  | .norm c => [c]
  | .esc c => [bslashChar, c]

/-- A normal string-body character is anything but `"` and `\`. -/
def itemOKb : StrItem → Bool
  | .norm c => !(c = dquoteChar) && !(c = bslashChar)
  | .esc _ => true

inductive Seg where
  | lit (items : List StrItem)
  | line (body : List Char)
  | block (body : List Char)
  | free (c : Char)
deriving DecidableEq

def renderSeg : Seg → List Char
  | .lit items => dquoteChar :: (items.map renderItem).flatten ++ [dquoteChar]
  | .line body => '/' :: '/' :: body
  | .block body => '/' :: '*' :: (body ++ ['*', '/'])
  | .free c => [c]

def eraseSeg : Seg → List Char
  | .lit items => dquoteChar :: (items.map renderItem).flatten ++ [dquoteChar]
  | .line _ => []
  | .block _ => []
  | .free c => [c]

def renderSegs (segs : List Seg) : List Char := (segs.map renderSeg).flatten

def eraseSegs (segs : List Seg) : List Char := (segs.map eraseSeg).flatten

/-- First character of a segment's rendering. -/
def segHead : Seg → Char
  | .lit _ => dquoteChar
  | .line _ => '/'
  | .block _ => '/'
  | .free c => c

/-- `hasCloseB body` : `body` contains the two-character sequence `*/`. -/
def hasCloseB : List Char → Bool
  | a :: b :: rest => (a = '*' && b = '/') || hasCloseB (b :: rest)
  | _ => false

def segOKb : Seg → Bool
  | .lit items => items.all itemOKb
  | .line body => body.all (fun c => !(c = nlChar) && !(c = crChar))
  | .block body => !hasCloseB body
  | .free c => !(c = dquoteChar)

/-- Adjacency conditions that make a tokenisation unambiguous: a line
comment is terminated by a newline free character (unless it ends the
document), and a free `/` is not immediately followed by a character that
would fuse into a comment opener. -/
def chainOKb : Seg → Seg → Bool
  | .line _, t => segHead t = nlChar || segHead t = crChar
  | .free c, t => !(c = '/') || (!(segHead t = '/') && !(segHead t = '*'))
  | _, _ => true

def wfSegs : List Seg → Bool
  | [] => true
  | [s] => segOKb s
  | s :: t :: rest => segOKb s && chainOKb s t && wfSegs (t :: rest)

/-! ## `parseParameters` (JetBrains run-configuration parser)

Go scans the parameter string rune by rune, tracking whether it is inside a
quoted region and which quote character opened it; quotes are dropped,
spaces inside quotes are kept, spaces outside quotes split, and only
non-empty accumulated arguments are emitted. -/

def parseParametersAux : List Char → Bool → Char → List Char → List (List Char)
  | [], _, _, current => if current = [] then [] else [current]
  | c :: rest, inQuote, quoteChar, current =>
    if !inQuote && (c = dquoteChar || c = squoteChar) then
      parseParametersAux rest true c current
    else if inQuote && c = quoteChar then
      parseParametersAux rest false quoteChar current
    else if !inQuote && c = spaceChar then
      if current = [] then parseParametersAux rest false quoteChar []
      else current :: parseParametersAux rest false quoteChar []
    else parseParametersAux rest inQuote quoteChar (current ++ [c])

/-- `parseParameters` from the JetBrains parser: split a parameter string
into arguments with quoted-string support (empty input yields `nil`). -/
def parseParameters (params : String) : List String :=
  if params = "" then []
  else (parseParametersAux params.data false nulChar []).map String.mk

example : parseParameters "" = [] := by decide
example : parseParameters "-Xmx512m -Dfoo=bar" = ["-Xmx512m", "-Dfoo=bar"] := by decide
example : parseParameters "a \"b c\" d" = ["a", "b c", "d"] := by decide

/-! ### Specification layer for `parseParameters`

An argument is a sequence of chunks: unquoted runs (no spaces, no quote
characters) and quoted regions (delimited by one quote character that does
not occur in the body).  Arguments are separated by single spaces. -/

inductive Chunk where
  | plain (s : List Char)
  | quoted (q : Char) (body : List Char)
deriving DecidableEq

def renderChunk : Chunk → List Char
  | .plain s => s
  | .quoted q body => q :: body ++ [q]

def chunkContent : Chunk → List Char
  | .plain s => s
  | .quoted _ body => body

def chunkOKb : Chunk → Bool
  | .plain s =>
    !(s = []) && s.all (fun c => !(c = spaceChar) && !(c = dquoteChar) && !(c = squoteChar))
  | .quoted q body => (q = dquoteChar || q = squoteChar) && body.all (fun c => !(c = q))

def renderArg (a : List Chunk) : List Char := (a.map renderChunk).flatten

def argContent (a : List Chunk) : List Char := (a.map chunkContent).flatten

def argOKb (a : List Chunk) : Bool := a.all chunkOKb && !(argContent a = [])

def renderArgs : List (List Chunk) → List Char
  | [] => []
  | [a] => renderArg a
  | a :: rest => renderArg a ++ spaceChar :: renderArgs rest

/-! ## `sanitizeFilename` (two copies in the converters)

Both replace each character of a fixed invalid set by `_` via successive
`strings.ReplaceAll` passes.  Since every pattern is a single character, a
`ReplaceAll` pass is exactly a character map, and the whole function is a
left fold of such passes. -/

/-- One `strings.ReplaceAll(result, string(c), "_")` pass. -/
def replaceCharWithUnderscore (l : List Char) (c : Char) : List Char :=
  l.map (fun d => if d = c then '_' else d)

namespace VSCodeToJetBrains

/-- Invalid filename characters listed in `sanitizeFilename`
(vscode_to_jetbrains.go); the space is replaced by a separate final pass. -/
def invalidFilenameChars : List Char :=
  ['/', bslashChar, ':', '*', '?', dquoteChar, '<', '>', '|']

/-- `sanitizeFilename` (free function, vscode_to_jetbrains.go): replace the
invalid characters, then spaces, with underscores. -/
def sanitizeFilename (name : String) : String :=
  String.mk
    (replaceCharWithUnderscore
      (invalidFilenameChars.foldl replaceCharWithUnderscore name.data) spaceChar)

end VSCodeToJetBrains

namespace VSCodeLaunchToJetBrains

/-- Invalid characters of the launch converter's `sanitizeFilename`
(space included in the same list). -/
def invalidFilenameChars : List Char :=
  ['/', bslashChar, ':', '*', '?', dquoteChar, '<', '>', '|', spaceChar]

/-- `sanitizeFilename` (method on `VSCodeLaunchToJetBrainsConverter`). -/
def sanitizeFilename (name : String) : String :=
  String.mk (invalidFilenameChars.foldl replaceCharWithUnderscore name.data)

end VSCodeLaunchToJetBrains

example : VSCodeToJetBrains.sanitizeFilename "Test: Run All <Tests>" = "Test__Run_All__Tests_" := by decide
example : VSCodeLaunchToJetBrains.sanitizeFilename "a/b c" = "a_b_c" := by decide

/-! ## Placeholder variable translators

`convertVSCodeVariables` of vscode_to_jetbrains.go iterates a Go map of six
replacement pairs; the patterns and the replacement outputs are mutually
non-overlapping, so the iteration order cannot influence the result, and
the model applies them in the order of the source's map literal.  The
launch-converter copy and the two identical JetBrains-to-VSCode copies are
written in the source as explicit `ReplaceAll` sequences, embedded in that
order. -/

namespace VSCodeToJetBrains

/-- `convertVSCodeVariables` (vscode_to_jetbrains.go). -/
def convertVSCodeVariables (path : String) : String :=
  replaceAll (replaceAll (replaceAll (replaceAll (replaceAll (replaceAll path
    "${workspaceFolder}" "$PROJECT_DIR$")
    "${workspaceRoot}" "$PROJECT_DIR$")
    "${file}" "$FilePath$")
    "${fileBasename}" "$FileName$")
    "${fileDirname}" "$FileDir$")
    "${fileExtname}" "$FileExt$"

end VSCodeToJetBrains

namespace VSCodeLaunchToJetBrains

/-- `convertVSCodeVariables` (method on the launch converter, part of the
same package): six sequential `ReplaceAll` passes. -/
def convertVSCodeVariables (input : String) : String :=
  replaceAll (replaceAll (replaceAll (replaceAll (replaceAll (replaceAll input
    "${workspaceFolder}" "$PROJECT_DIR$")
    "${workspaceRoot}" "$PROJECT_DIR$")
    "${fileDirname}" "$FileDir$")
    "${fileBasename}" "$FileName$")
    "${file}" "$FilePath$")
    "${relativeFile}" "$FilePathRelativeToProjectRoot$"

end VSCodeLaunchToJetBrains

/-- `convertJetBrainsVariables`: identical methods on the two
JetBrains-to-VSCode converters (tasks and launch), five sequential
`ReplaceAll` passes. -/
def convertJetBrainsVariables (input : String) : String :=
  replaceAll (replaceAll (replaceAll (replaceAll (replaceAll input
    "$PROJECT_DIR$" "${workspaceFolder}")
    "$MODULE_DIR$" "${workspaceFolder}")
    "$FileDir$" "${fileDirname}")
    "$FileName$" "${fileBasename}")
    "$FilePath$" "${file}"

example : VSCodeToJetBrains.convertVSCodeVariables "${workspaceRoot}/x" = "$PROJECT_DIR$/x" := by decide
example : convertJetBrainsVariables "$MODULE_DIR$/x" = "${workspaceFolder}/x" := by decide

/-! ## The canonical task model (internal/config) -/

def TypeVSCodeTask : String := "vscode-task"
def TypeVSCodeLaunch : String := "vscode-launch"
def TypeJetBrains : String := "jetbrains"

/-- `config.Task`: the unified task / launch configuration.  `env` models
the Go `map[string]string` as an association list with unique keys. -/
structure CTask where
  name : String := ""
  taskType : String := ""
  command : String := ""
  args : List String := []
  cwd : String := ""
  env : List (String × String) := []
  group : String := ""
  description : String := ""
  source : String := ""
deriving DecidableEq

/-! ## JetBrains XML structures (internal/parser/jetbrains and the
converters)

`JBOption` merges the parser-side `JetBrainsOption` (name/value attributes
plus optional nested `map` and `list` elements) with the converter-side
option (name/value only: converters always emit `none` for the nested
parts, matching the XML they serialize). -/

structure JBOption where
  name : String := ""
  value : String := ""
  mapEntries : Option (List (String × String)) := none
  listOptions : Option (List String) := none
deriving DecidableEq

/-- `JetBrainsRunConfiguration`: name and type attributes, flat options,
optional `<envs>` element (converter side) and optional
`ExternalSystemSettings` element (parser side; converters never emit it). -/
structure JetBrainsRunConfiguration where
  name : String := ""
  configType : String := ""
  options : List JBOption := []
  envVars : Option (List (String × String)) := none
  externalSystemSettings : Option (List JBOption) := none
deriving DecidableEq

/-- `JetBrainsComponent`: the root `<component>` wrapper written to disk. -/
structure JetBrainsComponent where
  name : String := "ProjectRunConfigurationManager"
  configuration : JetBrainsRunConfiguration
deriving DecidableEq

/-! ## VSCode JSON structures (the converters' output schemas) -/

/-- The `group` field of a task is either a bare string or an object with a
kind and an is-default flag. -/
inductive VSCodeGroup where
  | str (s : String)
  | obj (kind : String) (isDefault : Bool)
deriving DecidableEq

structure VSCodeTaskOptions where
  cwd : String := ""
  env : List (String × String) := []
deriving DecidableEq

structure VSCodeTask where
  label : String := ""
  taskType : String := ""
  command : String := ""
  args : List String := []
  group : VSCodeGroup := .str ""
  options : Option VSCodeTaskOptions := none
deriving DecidableEq

structure VSCodeTasksFile where
  version : String := "2.0.0"
  tasks : List VSCodeTask := []
deriving DecidableEq

structure VSCodeLaunchConfig where
  name : String := ""
  launchType : String := ""
  request : String := ""
  mode : String := ""
  program : String := ""
  args : List String := []
  env : List (String × String) := []
  cwd : String := ""
  mainClass : String := ""
  preLaunchTask : String := ""
deriving DecidableEq

structure VSCodeLaunchFile where
  version : String := "0.2.0"
  configurations : List VSCodeLaunchConfig := []
deriving DecidableEq

/-- A single quote character as a string (used in Go error messages of the
form `'%s'`). -/
def squoteStr : String := String.mk [squoteChar]

/-- `lookupEnv env k` : Go map indexing `env[k]` on the association-list
model (first binding wins; Go maps have unique keys). -/
def lookupEnv : List (String × String) → String → String
  | [], _ => ""
  | kv :: rest, k => if kv.1 = k then kv.2 else lookupEnv rest k

/-- The reified effects of one batch `convert` invocation: directories the
converter creates, files it writes (path and typed content), the converted
count, and the names of skipped tasks (the per-item diagnostics). -/
structure BatchResult (α : Type) where
  mkdirs : List String := []
  writes : List (String × α) := []
  converted : Nat := 0
  skipped : List String := []
deriving DecidableEq

/-! ## VSCode tasks → JetBrains run configurations
(internal/converter/vscode_to_jetbrains.go) -/

namespace VSCodeToJetBrains

/-- `determineConfigType`: classify a task's command into a JetBrains
configuration type. -/
def determineConfigType (task : CTask) : String :=
  let command := toLowerStr task.command
  if command = "java" then "Application"
  else if containsStr command "gradle" then "GradleRunTask"
  else if containsStr command "maven" || containsStr command "mvn" then "MavenRunConfiguration"
  else if containsStr command "npm" || containsStr command "node" then "NodeJS"
  else if containsStr command "python" || containsStr command "py" then "PythonConfigurationType"
  else "ShellScript"

/-- Loop body of `extractMainClass`: first argument that looks like a class
name; `-cp` / `--class-path` skip their value. -/
def extractMainClassAux : List String → String
  | [] => "Main"
  | arg :: rest =>
    if containsStr arg "." && !startsWithStr arg "-" then arg
    else if arg = "-cp" || arg = "--class-path" then
      match rest with
      | [] => "Main"
      | _ :: rest2 => extractMainClassAux rest2
    else extractMainClassAux rest

/-- `extractMainClass`. -/
def extractMainClass (task : CTask) : String := extractMainClassAux task.args

/-- `convertSingleTask`: build the JetBrains run configuration for one
VSCode task (the Go function never returns an error). -/
def convertSingleTask (task : CTask) : JetBrainsRunConfiguration :=
  let configType := determineConfigType task
  let typeOptions : List JBOption :=
    if configType = "Application" then
      { name := "MAIN_CLASS_NAME", value := extractMainClass task } ::
        (if task.args.length > 0 then
          [{ name := "PROGRAM_PARAMETERS", value := joinSpace task.args }]
        else [])
    else if configType = "GradleRunTask" then
      [{ name := "TASK_NAME", value := joinSpace task.args }]
    else if configType = "MavenRunConfiguration" then
      [{ name := "GOALS", value := joinSpace task.args }]
    else
      let scriptText :=
        if task.args.length > 0 then task.command ++ " " ++ joinSpace task.args
        else task.command
      [{ name := "SCRIPT_TEXT", value := scriptText }]
  let workingDir :=
    if task.cwd = "" then "$PROJECT_DIR$" else convertVSCodeVariables task.cwd
  { name := task.name
    configType := configType
    options := typeOptions ++ [{ name := "WORKING_DIRECTORY", value := workingDir }]
    envVars :=
      if task.env.length > 0 then
        some (task.env.map (fun kv => (kv.1, convertVSCodeVariables kv.2)))
      else none }

/-- Default output directory `<root>/.idea/runConfigurations`. -/
def outputDirOf (projectRoot outputPath : String) : String :=
  if outputPath = "" then joinPath (joinPath projectRoot ".idea") "runConfigurations"
  else outputPath

/-- The conversion loop of `ConvertTasks`: skip non-`vscode-task` tasks
(with a diagnostic), derive one output file per converted task, suppress
the write in dry-run mode while still counting the conversion. -/
def convertLoop (outputDir : String) (dryRun : Bool) :
    List CTask → List (String × JetBrainsComponent) × Nat × List String
  | [] => ([], 0, [])
  | task :: rest =>
    let r := convertLoop outputDir dryRun rest
    if !startsWithStr task.taskType "vscode-task" then (r.1, r.2.1, task.name :: r.2.2)
    else
      let cfg := convertSingleTask task
      let path := joinPath outputDir (sanitizeFilename task.name ++ ".xml")
      if dryRun then (r.1, r.2.1 + 1, r.2.2)
      else ((path, { configuration := cfg }) :: r.1, r.2.1 + 1, r.2.2)

/-- `ConvertTasks` with its file-system effects reified. -/
def convertTasks (projectRoot outputPath : String) (tasks : List CTask) (dryRun : Bool) :
    BatchResult JetBrainsComponent :=
  let outputDir := outputDirOf projectRoot outputPath
  let r := convertLoop outputDir dryRun tasks
  { mkdirs := if dryRun then [] else [outputDir]
    writes := r.1
    converted := r.2.1
    skipped := r.2.2 }

end VSCodeToJetBrains

/-! ## JetBrains run-configuration XML parser
(internal/parser/jetbrains/run_configuration_parser.go) -/

namespace RunConfigurationParser

/-- `resolveJetBrainsPath`: substitute `$PROJECT_DIR$` / `$MODULE_DIR$` and
anchor relative paths at the project root. -/
def resolveJetBrainsPath (projectRoot path : String) : String :=
  let resolved := replaceAll (replaceAll path "$PROJECT_DIR$" projectRoot) "$MODULE_DIR$" projectRoot
  if !isAbsStr resolved then joinPath projectRoot resolved else resolved

/-- Result of scanning an Application configuration's flat options (the Go
`switch` in `handleApplicationConfig`; a later option of the same name
overwrites an earlier one). -/
structure AppOptionScan where
  mainClass : String := ""
  vmParameters : String := ""
  programParameters : String := ""
  workingDirectory : String := ""
  envVars : Option (List (String × String)) := none
deriving DecidableEq

def scanAppOptions : List JBOption → AppOptionScan → AppOptionScan
  | [], acc => acc
  | o :: rest, acc =>
    scanAppOptions rest
      (if o.name = "MAIN_CLASS_NAME" then { acc with mainClass := o.value }
       else if o.name = "VM_PARAMETERS" then { acc with vmParameters := o.value }
       else if o.name = "PROGRAM_PARAMETERS" then { acc with programParameters := o.value }
       else if o.name = "WORKING_DIRECTORY" then { acc with workingDirectory := o.value }
       else if o.name = "ENV_VARIABLES" then
         match o.mapEntries with
         | some entries => { acc with envVars := some entries }
         | none => acc
       else acc)

/-- `handleApplicationConfig`: Java Application run configurations. -/
def handleApplicationConfig (projectRoot : String) (cfg : JetBrainsRunConfiguration)
    (task : CTask) : Except String CTask :=
  let task := { task with command := "java", group := "run" }
  let o := scanAppOptions cfg.options {}
  if o.mainClass = "" then
    Except.error "MAIN_CLASS_NAME is required for Application configuration"
  else
    let vmArgs := if !(o.vmParameters = "") then parseParameters o.vmParameters else []
    let progArgs := if !(o.programParameters = "") then parseParameters o.programParameters else []
    let task := { task with args := vmArgs ++ [o.mainClass] ++ progArgs }
    let task :=
      if !(o.workingDirectory = "") then
        { task with cwd := resolveJetBrainsPath projectRoot o.workingDirectory }
      else task
    let task :=
      match o.envVars with
      | some e => { task with env := e }
      | none => task
    Except.ok task

/-- Scan of `ExternalSystemSettings` options for a Gradle configuration:
collect `taskNames` list entries (appending across repetitions) and the
last `scriptParameters` value. -/
def scanGradleOptions : List JBOption → List String × String → List String × String
  | [], acc => acc
  | o :: rest, acc =>
    scanGradleOptions rest
      (if o.name = "taskNames" then
         match o.listOptions with
         | some l => (acc.1 ++ l, acc.2)
         | none => acc
       else if o.name = "scriptParameters" then (acc.1, o.value)
       else acc)

/-- `handleGradleConfig`: Gradle run configurations. -/
def handleGradleConfig (cfg : JetBrainsRunConfiguration) (task : CTask) :
    Except String CTask :=
  let task := { task with command := "gradle", group := "build" }
  match cfg.externalSystemSettings with
  | none => Except.error "ExternalSystemSettings is required for Gradle configuration"
  | some opts =>
    let scan := scanGradleOptions opts ([], "")
    let scriptArgs := if !(scan.2 = "") then parseParameters scan.2 else []
    Except.ok { task with args := scan.1 ++ scriptArgs }

/-- `convertRunConfiguration`: dispatch on the configuration's `type`
attribute; unsupported types are per-entry errors; an unset working
directory defaults to the project root. -/
def convertRunConfiguration (projectRoot sourceFile : String)
    (cfg : JetBrainsRunConfiguration) : Except String CTask :=
  let task : CTask :=
    { name := cfg.name
      taskType := TypeJetBrains
      source := sourceFile
      description := "JetBrains " ++ cfg.configType ++ " configuration" }
  let result :=
    if cfg.configType = "Application" then handleApplicationConfig projectRoot cfg task
    else if cfg.configType = "GradleRunConfiguration" then handleGradleConfig cfg task
    else Except.error ("unsupported JetBrains configuration type: " ++ cfg.configType)
  match result with
  | Except.error e => Except.error e
  | Except.ok t => Except.ok (if t.cwd = "" then { t with cwd := projectRoot } else t)

end RunConfigurationParser

/-! ## VSCode launch.json parser (internal/parser/vscode/launch_parser.go) -/

namespace LaunchParser

/-- `resolveWorkspacePath`: substitute `${workspaceFolder}` /
`${workspaceRoot}` and anchor relative paths at the project root. -/
def resolveWorkspacePath (projectRoot path : String) : String :=
  let resolved :=
    replaceAll (replaceAll path "${workspaceFolder}" projectRoot) "${workspaceRoot}" projectRoot
  if !isAbsStr resolved then joinPath projectRoot resolved else resolved

/-- `handleGoLaunchConfig`: command and argument construction for Go launch
entries; `attach` and unknown request kinds are per-entry errors. -/
def handleGoLaunchConfig (projectRoot : String) (cfg : VSCodeLaunchConfig) :
    Except String (String × List String) :=
  if cfg.request = "launch" then
    let args0 := if cfg.mode = "debug" then ["run"] else ["run"]
    let args1 :=
      args0 ++ [if !(cfg.program = "") then resolveWorkspacePath projectRoot cfg.program else "."]
    Except.ok ("go", args1 ++ cfg.args)
  else if cfg.request = "attach" then Except.error "go attach mode not yet supported"
  else Except.error ("unsupported Go request type: " ++ cfg.request)

/-- `handleNodeLaunchConfig`. -/
def handleNodeLaunchConfig (projectRoot : String) (cfg : VSCodeLaunchConfig) :
    Except String (String × List String) :=
  if cfg.request = "launch" then
    if cfg.program = "" then Except.error "node.js launch config requires program path"
    else Except.ok ("node", resolveWorkspacePath projectRoot cfg.program :: cfg.args)
  else if cfg.request = "attach" then Except.error "node.js attach mode not yet supported"
  else Except.error ("unsupported Node.js request type: " ++ cfg.request)

/-- `handlePythonLaunchConfig`. -/
def handlePythonLaunchConfig (projectRoot : String) (cfg : VSCodeLaunchConfig) :
    Except String (String × List String) :=
  if cfg.request = "launch" then
    if cfg.program = "" then Except.error "python launch config requires program path"
    else Except.ok ("python", resolveWorkspacePath projectRoot cfg.program :: cfg.args)
  else if cfg.request = "attach" then Except.error "python attach mode not yet supported"
  else Except.error ("unsupported Python request type: " ++ cfg.request)

/-- `convertLaunchConfig`: one launch entry to one Canonical Task;
unsupported launch types and request kinds are per-entry errors. -/
def convertLaunchConfig (projectRoot sourceFile : String) (cfg : VSCodeLaunchConfig) :
    Except String CTask :=
  let base : CTask :=
    { name := cfg.name
      taskType := TypeVSCodeLaunch
      source := sourceFile
      description := cfg.launchType ++ " " ++ cfg.request ++ " configuration" }
  let handled :=
    if cfg.launchType = "go" then handleGoLaunchConfig projectRoot cfg
    else if cfg.launchType = "node" then handleNodeLaunchConfig projectRoot cfg
    else if cfg.launchType = "python" then handlePythonLaunchConfig projectRoot cfg
    else Except.error ("unsupported launch type: " ++ cfg.launchType)
  match handled with
  | Except.error e => Except.error e
  | Except.ok ca =>
    let cwd0 := if !(cfg.cwd = "") then resolveWorkspacePath projectRoot cfg.cwd else ""
    let cwd := if cwd0 = "" then projectRoot else cwd0
    let env := cfg.env.map (fun kv =>
      (kv.1, if containsStr kv.2 "$\x7bworkspace" then resolveWorkspacePath projectRoot kv.2 else kv.2))
    let group :=
      if cfg.request = "launch" then "launch"
      else if cfg.request = "attach" then "debug"
      else "launch"
    Except.ok { base with command := ca.1, args := ca.2, cwd := cwd, env := env, group := group }

/-- The loop of `ParseLaunchConfigs` after the file has been read and its
JSON decoded: convert every entry, skipping (with a warning) those whose
conversion fails. -/
def parseLaunchConfigs (projectRoot sourceFile : String) :
    List VSCodeLaunchConfig → List CTask
  | [] => []
  | cfg :: rest =>
    match convertLaunchConfig projectRoot sourceFile cfg with
    | Except.ok t => t :: parseLaunchConfigs projectRoot sourceFile rest
    | Except.error _ => parseLaunchConfigs projectRoot sourceFile rest

end LaunchParser

/-! ## JetBrains run configurations → VSCode tasks.json
(internal/converter/jetbrains_to_vscode.go) -/

namespace JetBrainsToVSCode

/-- `determineTaskGroup`: guess a VSCode task group from name/command
patterns. -/
def determineTaskGroup (task : CTask) : VSCodeGroup :=
  let taskName := toLowerStr task.name
  let command := toLowerStr task.command
  if containsStr taskName "build" || containsStr command "build" ||
      (containsStr command "gradle" && (containsStr command "build" || containsStr command "assemble")) ||
      (containsStr command "mvn" && containsStr command "compile") ||
      containsStr command "make" then
    VSCodeGroup.obj "build" (containsStr taskName "build" && !containsStr taskName "test")
  else if containsStr taskName "test" || containsStr command "test" ||
      (containsStr command "gradle" && containsStr command "test") ||
      (containsStr command "mvn" && containsStr command "test") ||
      (containsStr command "npm" && containsStr command "test") then
    VSCodeGroup.str "test"
  else VSCodeGroup.str "none"

/-- `convertSingleTask` (with `determineVSCodeTaskDetails` inlined at its
only call site): split the stored command line on whitespace, first field
becomes the command, the rest plus the task's own arguments become the
args; an all-whitespace command is a per-entry error. -/
def convertSingleTask (task : CTask) : Except String VSCodeTask :=
  match fieldsStr task.command with
  | [] => Except.error ("empty command in task " ++ squoteStr ++ task.name ++ squoteStr)
  | p0 :: restParts =>
    let allArgs := restParts ++ task.args
    let options : Option VSCodeTaskOptions :=
      if task.cwd = "" && task.env.length = 0 then none
      else
        some
          { cwd := if !(task.cwd = "") then convertJetBrainsVariables task.cwd else ""
            env :=
              if task.env.length > 0 then
                task.env.map (fun kv => (kv.1, convertJetBrainsVariables kv.2))
              else [] }
    Except.ok
      { label := task.name
        taskType := "shell"
        command := p0
        args := allArgs
        group := determineTaskGroup task
        options := options }

/-- The conversion loop of `ConvertTasks`: accumulate converted entries in
input order, record per-entry failures as skips. -/
def convertLoop : List CTask → List VSCodeTask × List String
  | [] => ([], [])
  | task :: rest =>
    let r := convertLoop rest
    match convertSingleTask task with
    | Except.ok v => (v :: r.1, r.2)
    | Except.error _ => (r.1, task.name :: r.2)

/-- `ConvertTasks` with its file-system effects reified: all JetBrains-kind
tasks are merged into a single `tasks.json` write (none when no JetBrains
task is present). -/
def convertTasks (projectRoot outputPath : String) (tasks : List CTask) (dryRun : Bool) :
    BatchResult VSCodeTasksFile :=
  let jbTasks := tasks.filter (fun t => t.taskType = TypeJetBrains)
  if jbTasks = [] then {}
  else
    let r := convertLoop jbTasks
    let file : VSCodeTasksFile := { version := "2.0.0", tasks := r.1 }
    let outPath :=
      if outputPath = "" then joinPath (joinPath projectRoot ".vscode") "tasks.json"
      else outputPath
    if dryRun then { converted := r.1.length, skipped := r.2 }
    else
      { mkdirs := [dirName outPath]
        writes := [(outPath, file)]
        converted := r.1.length
        skipped := r.2 }

end JetBrainsToVSCode

/-! ## JetBrains run configurations → VSCode launch.json
(internal/converter/jetbrains_to_vscode_launch.go) -/

namespace JetBrainsToVSCodeLaunch

/-- `canConvertToLaunch`: only Application-like configurations (or ones
with executable-looking commands) are converted to launch configs. -/
def canConvertToLaunch (task : CTask) : Bool :=
  let command := toLowerStr task.command
  containsStr command "java" || containsStr command "node" || containsStr command "python" ||
    containsStr task.name "Application" ||
    (containsStr task.command " " && !containsStr command "gradle" && !containsStr command "mvn")

/-- `extractJavaMainClass`: first class-looking field of the command, then
of the args (excluding jars), else `Main`. -/
def extractJavaMainClass (task : CTask) : String :=
  match (fieldsStr task.command).find? (fun part =>
      containsStr part "." && !startsWithStr part "-") with
  | some p => p
  | none =>
    match task.args.find? (fun arg =>
        containsStr arg "." && !startsWithStr arg "-" && !endsWithStr arg ".jar") with
    | some a => a
    | none => "Main"

/-- `extractJavaArgs`: the task's args with the main class removed. -/
def extractJavaArgs (task : CTask) (mainClass : String) : List String :=
  task.args.filter (fun arg => !(arg = mainClass))

/-- Script-suffix test for Node programs. -/
def isNodeScript (s : String) : Bool := endsWithStr s ".js" || endsWithStr s ".ts"

/-- Script-suffix test for Python programs. -/
def isPythonScript (s : String) : Bool := endsWithStr s ".py"

/-- `extractNodeProgram`: first script-like field after the command head,
then the args, else a conventional fallback. -/
def extractNodeProgram (task : CTask) : String :=
  match ((fieldsStr task.command).drop 1).find? isNodeScript with
  | some p => p
  | none =>
    match task.args.find? isNodeScript with
    | some a => a
    | none => "${workspaceFolder}/index.js"

/-- Shared loop of `extractNodeArgs` / `extractPythonArgs`: walk the
command fields after the head, drop everything up to and including the
first script file, keep the rest. -/
def extractScriptArgsAux (isScript : String → Bool) : List String → Bool → List String
  | [], _ => []
  | part :: rest, foundProgram =>
    if foundProgram then part :: extractScriptArgsAux isScript rest true
    else if isScript part then extractScriptArgsAux isScript rest true
    else extractScriptArgsAux isScript rest false

/-- `extractNodeArgs`. -/
def extractNodeArgs (task : CTask) : List String :=
  extractScriptArgsAux isNodeScript ((fieldsStr task.command).drop 1) false ++ task.args

/-- `extractPythonProgram`. -/
def extractPythonProgram (task : CTask) : String :=
  match ((fieldsStr task.command).drop 1).find? isPythonScript with
  | some p => p
  | none =>
    match task.args.find? isPythonScript with
    | some a => a
    | none => "${workspaceFolder}/main.py"

/-- `extractPythonArgs`. -/
def extractPythonArgs (task : CTask) : List String :=
  extractScriptArgsAux isPythonScript ((fieldsStr task.command).drop 1) false ++ task.args

/-- `determineLaunchType`: fill launch type, program / main class, and args
of the launch configuration according to the command; generic commands fall
back to a `node`-typed entry run through `strings.Fields`. -/
def determineLaunchType (task : CTask) (lc : VSCodeLaunchConfig) :
    Except String VSCodeLaunchConfig :=
  let command := toLowerStr task.command
  if containsStr command "java" then
    let mainClass := extractJavaMainClass task
    if mainClass = "" then
      Except.error
        ("could not determine main class for Java application " ++
          squoteStr ++ task.name ++ squoteStr)
    else
      Except.ok { lc with launchType := "java", mainClass := mainClass
                          args := extractJavaArgs task mainClass }
  else if containsStr command "node" then
    let program := extractNodeProgram task
    if program = "" then
      Except.error
        ("could not determine program for Node.js application " ++
          squoteStr ++ task.name ++ squoteStr)
    else
      Except.ok { lc with launchType := "node"
                          program := convertJetBrainsVariables program
                          args := extractNodeArgs task }
  else if containsStr command "python" then
    let program := extractPythonProgram task
    if program = "" then
      Except.error
        ("could not determine program for Python application " ++
          squoteStr ++ task.name ++ squoteStr)
    else
      Except.ok { lc with launchType := "python"
                          program := convertJetBrainsVariables program
                          args := extractPythonArgs task }
  else
    match fieldsStr task.command with
    | [] =>
      Except.error
        ("could not determine program for task " ++ squoteStr ++ task.name ++ squoteStr)
    | p0 :: restParts =>
      let lc := { lc with launchType := "node", program := convertJetBrainsVariables p0 }
      if restParts.length > 0 then Except.ok { lc with args := restParts ++ task.args }
      else if task.args.length > 0 then Except.ok { lc with args := task.args }
      else Except.ok lc

/-- `convertSingleTaskToLaunch`. -/
def convertSingleTaskToLaunch (task : CTask) : Except String VSCodeLaunchConfig :=
  let lc0 : VSCodeLaunchConfig := { name := task.name, request := "launch" }
  match determineLaunchType task lc0 with
  | Except.error e => Except.error e
  | Except.ok lc =>
    let lc :=
      if !(task.cwd = "") then { lc with cwd := convertJetBrainsVariables task.cwd }
      else { lc with cwd := "${workspaceFolder}" }
    let lc :=
      if task.env.length > 0 then
        { lc with env := task.env.map (fun kv => (kv.1, convertJetBrainsVariables kv.2)) }
      else lc
    Except.ok lc

/-- Conversion loop of `ConvertToLaunch`. -/
def convertLoop : List CTask → List VSCodeLaunchConfig × List String
  | [] => ([], [])
  | task :: rest =>
    let r := convertLoop rest
    match convertSingleTaskToLaunch task with
    | Except.ok lc => (lc :: r.1, r.2)
    | Except.error _ => (r.1, task.name :: r.2)

/-- `ConvertToLaunch` with its file-system effects reified: all suitable
JetBrains-kind tasks are merged into a single `launch.json` write. -/
def convertToLaunch (projectRoot outputPath : String) (tasks : List CTask) (dryRun : Bool) :
    BatchResult VSCodeLaunchFile :=
  let jbTasks := tasks.filter (fun t => t.taskType = TypeJetBrains && canConvertToLaunch t)
  if jbTasks = [] then {}
  else
    let r := convertLoop jbTasks
    let file : VSCodeLaunchFile := { version := "0.2.0", configurations := r.1 }
    let outPath :=
      if outputPath = "" then joinPath (joinPath projectRoot ".vscode") "launch.json"
      else outputPath
    if dryRun then { converted := r.1.length, skipped := r.2 }
    else
      { mkdirs := [dirName outPath]
        writes := [(outPath, file)]
        converted := r.1.length
        skipped := r.2 }

end JetBrainsToVSCodeLaunch

/-! ## VSCode launch configurations → JetBrains run configurations
(vscode_launch_to_jetbrains.go) -/

namespace VSCodeLaunchToJetBrains

/-- `determineJetBrainsConfigType`: dispatch on description hints carried
over from a prior translation and on command patterns, in a fixed category
order (Go, Node, Python, Java/generic); within each category the hint and
the command test are alternatives of one disjunction.  The Go function's
error return is always `nil`. -/
def determineJetBrainsConfigType (task : CTask) : String :=
  let description := toLowerStr task.description
  let command := toLowerStr task.command
  if containsStr description "go launch" || containsStr description "go attach" ||
      command = "go" then "GoApplicationRunConfiguration"
  else if containsStr description "node launch" || containsStr description "node attach" ||
      command = "node" || containsStr task.command ".js" || containsStr task.command ".ts" then
    "NodeJSConfigurationType"
  else if containsStr description "python launch" || containsStr description "python attach" ||
      command = "python" || containsStr task.command ".py" then
    "PythonConfigurationType"
  else if containsStr command "java" || containsStr task.command "mainClass" then "Application"
  else "Application"

/-- First list element equal to `key` that has a successor, paired with
that successor (the `parts[i] == key && i+1 < len` loops). -/
def findValueAfter : List String → String → Option String
  | p :: q :: rest, key => if p = key then some q else findValueAfter (q :: rest) key
  | _, _ => none

/-- `extractMainClassFromLaunch`. -/
def extractMainClassFromLaunch (task : CTask) : String :=
  let viaKey :=
    if containsStr task.command "mainClass" then
      (findValueAfter (fieldsStr task.command) "mainClass").map trimQuotes
    else none
  match viaKey with
  | some v => v
  | none =>
    match (fieldsStr task.command).find? (fun part =>
        containsStr part "." && !startsWithStr part "-" && !endsWithStr part ".jar") with
    | some p => p
    | none =>
      match task.args.find? (fun arg =>
          containsStr arg "." && !startsWithStr arg "-" && !endsWithStr arg ".jar") with
      | some a => a
      | none => ""

/-- Path-or-script test of `extractProgramFromLaunch`. -/
def looksLikeProgram (s : String) : Bool :=
  containsStr s "/" || containsStr s (String.mk [bslashChar]) ||
    endsWithStr s ".js" || endsWithStr s ".ts" || endsWithStr s ".py"

/-- `extractProgramFromLaunch`. -/
def extractProgramFromLaunch (task : CTask) : String :=
  let viaKey :=
    if containsStr task.command "program" then
      (findValueAfter (fieldsStr task.command) "program").map trimQuotes
    else none
  match viaKey with
  | some v => v
  | none =>
    match (fieldsStr task.command).find? looksLikeProgram with
    | some p => p
    | none =>
      match task.args.find? looksLikeProgram with
      | some a => a
      | none => ""

/-- `filterArgsExcluding`. -/
def filterArgsExcluding (args : List String) (exclude : String) : List String :=
  args.filter (fun arg => !(arg = exclude))

/-- `extractGoPackageFromLaunch`: the argument following `run`, with VSCode
variables translated and the project directory collapsed to `.`. -/
def extractGoPackageFromLaunch (task : CTask) : String :=
  match findValueAfter task.args "run" with
  | some p =>
    let packagePath := convertVSCodeVariables p
    if packagePath = "$PROJECT_DIR$" then "." else packagePath
  | none => "."

/-- Loop of `filterGoArgsFromLaunch`: drop each `run` and the argument
following it. -/
def filterGoArgsAux : List String → Bool → List String
  | [], _ => []
  | arg :: rest, skipNext =>
    if skipNext then filterGoArgsAux rest false
    else if arg = "run" then filterGoArgsAux rest true
    else arg :: filterGoArgsAux rest false

/-- `filterGoArgsFromLaunch`. -/
def filterGoArgsFromLaunch (task : CTask) : List String :=
  filterGoArgsAux task.args false

/-- `addJavaApplicationOptions`. -/
def addJavaApplicationOptions (task : CTask) : Except String (List JBOption) :=
  let mainClass := extractMainClassFromLaunch task
  if mainClass = "" then
    Except.error
      ("could not determine main class for Java application " ++
        squoteStr ++ task.name ++ squoteStr)
  else
    let args := filterArgsExcluding task.args mainClass
    Except.ok
      ({ name := "MAIN_CLASS_NAME", value := mainClass } ::
        (if args.length > 0 then
          [{ name := "PROGRAM_PARAMETERS", value := joinSpace args }]
        else []))

/-- `addGoApplicationOptions` (never fails). -/
def addGoApplicationOptions (task : CTask) : List JBOption :=
  let packagePath0 := extractGoPackageFromLaunch task
  let packagePath := if packagePath0 = "" then "." else packagePath0
  let args := filterGoArgsFromLaunch task
  { name := "PACKAGE", value := packagePath } ::
    { name := "RUN_KIND", value := "PACKAGE" } ::
    (if args.length > 0 then
      [{ name := "PROGRAM_PARAMETERS", value := joinSpace args }]
    else [])

/-- `addNodeJSOptions`. -/
def addNodeJSOptions (task : CTask) : Except String (List JBOption) :=
  let program := extractProgramFromLaunch task
  if program = "" then
    Except.error
      ("could not determine program for Node.js application " ++
        squoteStr ++ task.name ++ squoteStr)
  else
    Except.ok
      ({ name := "PATH_TO_JS_FILE", value := convertVSCodeVariables program } ::
        (if task.args.length > 0 then
          [{ name := "APPLICATION_PARAMETERS", value := joinSpace task.args }]
        else []))

/-- `addPythonOptions`: module execution (`-m`) uses a dummy script name;
otherwise the script path is required. -/
def addPythonOptions (task : CTask) : Except String (List JBOption) :=
  if task.args.length ≥ 2 && task.args.headD "" = "-m" then
    Except.ok
      [{ name := "SCRIPT_NAME", value := "python" },
       { name := "PARAMETERS", value := joinSpace task.args }]
  else
    let program := extractProgramFromLaunch task
    if program = "" then
      Except.error
        ("could not determine program for Python application " ++
          squoteStr ++ task.name ++ squoteStr)
    else
      Except.ok
        ({ name := "SCRIPT_NAME", value := convertVSCodeVariables program } ::
          (if task.args.length > 0 then
            [{ name := "PARAMETERS", value := joinSpace task.args }]
          else []))

/-- `addGenericOptions` (unreachable through `determineJetBrainsConfigType`,
which never returns a type outside the four handled cases; embedded for
completeness): command into `PROGRAM_PARAMETERS`, args appended to it. -/
def addGenericOptions (task : CTask) : List JBOption :=
  let opts : List JBOption :=
    if !(task.command = "") then [{ name := "PROGRAM_PARAMETERS", value := task.command }]
    else []
  if task.args.length > 0 then
    match opts with
    | [o] => [{ o with value := o.value ++ " " ++ joinSpace task.args }]
    | [] => [{ name := "PROGRAM_PARAMETERS", value := joinSpace task.args }]
    | _ => opts
  else opts

/-- `addConfigurationOptions`: dispatch on the already-determined type. -/
def addConfigurationOptions (task : CTask) (configType : String) :
    Except String (List JBOption) :=
  if configType = "GoApplicationRunConfiguration" then Except.ok (addGoApplicationOptions task)
  else if configType = "Application" then addJavaApplicationOptions task
  else if configType = "NodeJSConfigurationType" then addNodeJSOptions task
  else if configType = "PythonConfigurationType" then addPythonOptions task
  else Except.ok (addGenericOptions task)

/-- `convertSingleLaunchConfig`: type-specific options, working directory,
and environment variables emitted sorted by key
(`sort.Strings(keys)`, modelled with `List.insertionSort` on `≤`). -/
def convertSingleLaunchConfig (task : CTask) : Except String JetBrainsRunConfiguration :=
  let configType := determineJetBrainsConfigType task
  match addConfigurationOptions task configType with
  | Except.error e => Except.error e
  | Except.ok typeOpts =>
    let workingDir :=
      if task.cwd = "" then "$PROJECT_DIR$" else convertVSCodeVariables task.cwd
    Except.ok
      { name := task.name
        configType := configType
        options := typeOpts ++ [{ name := "WORKING_DIRECTORY", value := workingDir }]
        envVars :=
          if task.env.length > 0 then
            let keys := List.insertionSort (fun a b : String => a ≤ b) (task.env.map Prod.fst)
            some (keys.map (fun k => (k, convertVSCodeVariables (lookupEnv task.env k))))
          else none }

/-- Conversion loop of `ConvertLaunchConfigs`: one output file per
successful conversion; in dry-run mode the write is suppressed but the
conversion still counted. -/
def convertLoop (outputDir : String) (dryRun : Bool) :
    List CTask → List (String × JetBrainsComponent) × Nat × List String
  | [] => ([], 0, [])
  | task :: rest =>
    let r := convertLoop outputDir dryRun rest
    match convertSingleLaunchConfig task with
    | Except.error _ => (r.1, r.2.1, task.name :: r.2.2)
    | Except.ok cfg =>
      let path := joinPath outputDir (sanitizeFilename task.name ++ ".xml")
      if dryRun then (r.1, r.2.1 + 1, r.2.2)
      else ((path, { configuration := cfg }) :: r.1, r.2.1 + 1, r.2.2)

/-- `ConvertLaunchConfigs` with its file-system effects reified. -/
def convertLaunchConfigs (projectRoot outputPath : String) (tasks : List CTask)
    (dryRun : Bool) : BatchResult JetBrainsComponent :=
  let launchTasks := tasks.filter (fun t => t.taskType = TypeVSCodeLaunch)
  if launchTasks = [] then {}
  else
    let outputDir :=
      if outputPath = "" then joinPath (joinPath projectRoot ".idea") "runConfigurations"
      else outputPath
    let r := convertLoop outputDir dryRun launchTasks
    { mkdirs := if dryRun then [] else [outputDir]
      writes := r.1
      converted := r.2.1
      skipped := r.2.2 }

end VSCodeLaunchToJetBrains

/-! ## Concrete instances used by witnesses and counterexamples -/

/-- A gradle build task of the build-tool category. -/
def gradleBuildTask : CTask :=
  { name := "build", taskType := "vscode-task", command := "gradle", args := ["build"] }

/-- A Java application task of the compiled-application category. -/
def javaRunTask : CTask :=
  { name := "run app", taskType := "vscode-task", command := "java"
    args := ["-cp", "out", "com.example.Main", "arg1"] }

/-- A task whose description hints the Node category but whose command
matches the Go category. -/
def nodeHintGoCommandTask : CTask :=
  { name := "x", command := "go", description := "node launch configuration" }

/-- A well-formed Go launch configuration (request `launch`). -/
def goLaunchCfg : VSCodeLaunchConfig :=
  { name := "debug main", launchType := "go", request := "launch", program := "" }

/-- An attach-mode launch configuration (unsupported per entry). -/
def goAttachCfg : VSCodeLaunchConfig :=
  { name := "attach main", launchType := "go", request := "attach" }

/-- A VSCode-launch-kind task with an unsorted environment, classified Go
by its description hint. -/
def envLaunchTask : CTask :=
  { name := "t", taskType := "vscode-launch", command := "go", args := ["run", "."]
    env := [("B", "1"), ("A", "2")], description := "go launch configuration" }

/-- Three JetBrains-kind tasks for the merge-cardinality witness. -/
def threeJetBrainsTasks : List CTask :=
  [{ name := "jb1", taskType := "jetbrains", command := "gradle build" },
   { name := "jb2", taskType := "jetbrains", command := "java -cp out Main" },
   { name := "jb3", taskType := "jetbrains", command := "make all" }]

/-- Three VSCode-task-kind tasks for the merge-cardinality witness. -/
def threeVSCodeTasks : List CTask :=
  [{ name := "t one", taskType := "vscode-task", command := "go", args := ["build"] },
   { name := "t:two", taskType := "vscode-task", command := "npm", args := ["test"] },
   { name := "t three", taskType := "vscode-task", command := "python", args := ["x.py"] }]

/-- Decidable equality for `Except` results (used to evaluate parser
outcomes at concrete inputs). -/
instance {e a : Type} [DecidableEq e] [DecidableEq a] : DecidableEq (Except e a)
  | Except.error x, Except.error y =>
    if h : x = y then isTrue (by rw [h]) else isFalse (fun he => h (by cases he; rfl))
  | Except.ok x, Except.ok y =>
    if h : x = y then isTrue (by rw [h]) else isFalse (fun he => h (by cases he; rfl))
  | Except.error _, Except.ok _ => isFalse (fun he => Except.noConfusion he)
  | Except.ok _, Except.error _ => isFalse (fun he => Except.noConfusion he)

/-- A concrete chunked parameter list: `a`, `b" c"`, `\'d e\'` (the second
argument mixes an unquoted run with a double-quoted region, the third is a
single-quoted region with a space). -/
def paramSpecArgs : List (List Chunk) :=
  [[Chunk.plain ['a']],
   [Chunk.plain ['b'], Chunk.quoted dquoteChar [spaceChar, 'c']],
   [Chunk.quoted squoteChar ['d', spaceChar, 'e']]]

/-- A concrete tokenised JSONC document for the comment-stripping witness:
`{"u": "http://x", "s": "a\\"b"} // note`, a newline, then `/* c */` and a
trailing free character. -/
def specSegs : List Seg :=
  [Seg.free '\x7b',
   Seg.lit [StrItem.norm 'u'],
   Seg.free ':',
   Seg.free spaceChar,
   Seg.lit [StrItem.norm 'h', StrItem.norm 't', StrItem.norm 't', StrItem.norm 'p',
            StrItem.norm ':', StrItem.norm '/', StrItem.norm '/', StrItem.norm 'x'],
   Seg.free ',',
   Seg.lit [StrItem.norm 's'],
   Seg.free ':',
   Seg.lit [StrItem.norm 'a', StrItem.esc dquoteChar, StrItem.norm 'b'],
   Seg.free '\x7d',
   Seg.free spaceChar,
   Seg.line ['n', 'o', 't', 'e'],
   Seg.free nlChar,
   Seg.block [spaceChar, 'c', spaceChar],
   Seg.free 'z']

/-- Pointwise effect of a sequence of single-character replacement passes. -/
def applyReplacements (cs : List Char) (c : Char) : Char :=
  cs.foldl (fun d a => if d = a then '_' else d) c

/-! # Theorems -/

/-! ## C5 — dry-run performs no file-system mutation -/

theorem vtjLoop_dry_writes (d : String) (ts : List CTask) :
    (VSCodeToJetBrains.convertLoop d true ts).1 = [] := by
  induction ts with
  | nil => simp [VSCodeToJetBrains.convertLoop]
  | cons t ts ih =>
    cases hb : startsWithStr t.taskType "vscode-task" <;>
      simp [VSCodeToJetBrains.convertLoop, hb, ih]

theorem vtjLoop_dry_counts (d : String) (ts : List CTask) :
    (VSCodeToJetBrains.convertLoop d true ts).2 = (VSCodeToJetBrains.convertLoop d false ts).2 := by
  induction ts with
  | nil => simp [VSCodeToJetBrains.convertLoop]
  | cons t ts ih =>
    cases hb : startsWithStr t.taskType "vscode-task" <;>
      simp [VSCodeToJetBrains.convertLoop, hb, ih]

theorem vltjLoop_dry_writes (d : String) (ts : List CTask) :
    (VSCodeLaunchToJetBrains.convertLoop d true ts).1 = [] := by
  induction ts with
  | nil => simp [VSCodeLaunchToJetBrains.convertLoop]
  | cons t ts ih =>
    cases hc : VSCodeLaunchToJetBrains.convertSingleLaunchConfig t <;>
      simp [VSCodeLaunchToJetBrains.convertLoop, hc, ih]

theorem vltjLoop_dry_counts (d : String) (ts : List CTask) :
    (VSCodeLaunchToJetBrains.convertLoop d true ts).2 =
      (VSCodeLaunchToJetBrains.convertLoop d false ts).2 := by
  induction ts with
  | nil => simp [VSCodeLaunchToJetBrains.convertLoop]
  | cons t ts ih =>
    cases hc : VSCodeLaunchToJetBrains.convertSingleLaunchConfig t <;>
      simp [VSCodeLaunchToJetBrains.convertLoop, hc, ih]

/-- C5: with the dry-run flag set, none of the four converters creates a
directory or writes a file, and each returns the same converted count and
the same skip diagnostics as the corresponding real run. -/
theorem dry_run_no_write (root out : String) (tasks : List CTask) :
    (VSCodeToJetBrains.convertTasks root out tasks true).writes = [] ∧
    (VSCodeToJetBrains.convertTasks root out tasks true).mkdirs = [] ∧
    (VSCodeToJetBrains.convertTasks root out tasks true).converted =
      (VSCodeToJetBrains.convertTasks root out tasks false).converted ∧
    (VSCodeToJetBrains.convertTasks root out tasks true).skipped =
      (VSCodeToJetBrains.convertTasks root out tasks false).skipped ∧
    (JetBrainsToVSCode.convertTasks root out tasks true).writes = [] ∧
    (JetBrainsToVSCode.convertTasks root out tasks true).mkdirs = [] ∧
    (JetBrainsToVSCode.convertTasks root out tasks true).converted =
      (JetBrainsToVSCode.convertTasks root out tasks false).converted ∧
    (JetBrainsToVSCode.convertTasks root out tasks true).skipped =
      (JetBrainsToVSCode.convertTasks root out tasks false).skipped ∧
    (JetBrainsToVSCodeLaunch.convertToLaunch root out tasks true).writes = [] ∧
    (JetBrainsToVSCodeLaunch.convertToLaunch root out tasks true).mkdirs = [] ∧
    (JetBrainsToVSCodeLaunch.convertToLaunch root out tasks true).converted =
      (JetBrainsToVSCodeLaunch.convertToLaunch root out tasks false).converted ∧
    (JetBrainsToVSCodeLaunch.convertToLaunch root out tasks true).skipped =
      (JetBrainsToVSCodeLaunch.convertToLaunch root out tasks false).skipped ∧
    (VSCodeLaunchToJetBrains.convertLaunchConfigs root out tasks true).writes = [] ∧
    (VSCodeLaunchToJetBrains.convertLaunchConfigs root out tasks true).mkdirs = [] ∧
    (VSCodeLaunchToJetBrains.convertLaunchConfigs root out tasks true).converted =
      (VSCodeLaunchToJetBrains.convertLaunchConfigs root out tasks false).converted ∧
    (VSCodeLaunchToJetBrains.convertLaunchConfigs root out tasks true).skipped =
      (VSCodeLaunchToJetBrains.convertLaunchConfigs root out tasks false).skipped := by
  refine ⟨?_, ?_, ?_, ?_, ?_, ?_, ?_, ?_, ?_, ?_, ?_, ?_, ?_, ?_, ?_, ?_⟩
  · simp [VSCodeToJetBrains.convertTasks, vtjLoop_dry_writes]
  · simp [VSCodeToJetBrains.convertTasks]
  · simp [VSCodeToJetBrains.convertTasks, vtjLoop_dry_counts]
  · simp [VSCodeToJetBrains.convertTasks, vtjLoop_dry_counts]
  · by_cases h : tasks.filter (fun t => t.taskType = TypeJetBrains) = [] <;>
      simp [JetBrainsToVSCode.convertTasks, h]
  · by_cases h : tasks.filter (fun t => t.taskType = TypeJetBrains) = [] <;>
      simp [JetBrainsToVSCode.convertTasks, h]
  · by_cases h : tasks.filter (fun t => t.taskType = TypeJetBrains) = [] <;>
      simp [JetBrainsToVSCode.convertTasks, h]
  · by_cases h : tasks.filter (fun t => t.taskType = TypeJetBrains) = [] <;>
      simp [JetBrainsToVSCode.convertTasks, h]
  · by_cases h : tasks.filter
        (fun t => t.taskType = TypeJetBrains && JetBrainsToVSCodeLaunch.canConvertToLaunch t) = [] <;>
      simp [JetBrainsToVSCodeLaunch.convertToLaunch, h]
  · by_cases h : tasks.filter
        (fun t => t.taskType = TypeJetBrains && JetBrainsToVSCodeLaunch.canConvertToLaunch t) = [] <;>
      simp [JetBrainsToVSCodeLaunch.convertToLaunch, h]
  · by_cases h : tasks.filter
        (fun t => t.taskType = TypeJetBrains && JetBrainsToVSCodeLaunch.canConvertToLaunch t) = [] <;>
      simp [JetBrainsToVSCodeLaunch.convertToLaunch, h]
  · by_cases h : tasks.filter
        (fun t => t.taskType = TypeJetBrains && JetBrainsToVSCodeLaunch.canConvertToLaunch t) = [] <;>
      simp [JetBrainsToVSCodeLaunch.convertToLaunch, h]
  · by_cases h : tasks.filter (fun t => t.taskType = TypeVSCodeLaunch) = [] <;>
      simp [VSCodeLaunchToJetBrains.convertLaunchConfigs, h, vltjLoop_dry_writes]
  · by_cases h : tasks.filter (fun t => t.taskType = TypeVSCodeLaunch) = [] <;>
      simp [VSCodeLaunchToJetBrains.convertLaunchConfigs, h]
  · by_cases h : tasks.filter (fun t => t.taskType = TypeVSCodeLaunch) = [] <;>
      simp [VSCodeLaunchToJetBrains.convertLaunchConfigs, h, vltjLoop_dry_counts]
  · by_cases h : tasks.filter (fun t => t.taskType = TypeVSCodeLaunch) = [] <;>
      simp [VSCodeLaunchToJetBrains.convertLaunchConfigs, h, vltjLoop_dry_counts]

/-! ## C4 — merge cardinality and order -/

theorem jbvLoop_eq_filterMap (ts : List CTask) :
    (JetBrainsToVSCode.convertLoop ts).1 =
      ts.filterMap (fun t => (JetBrainsToVSCode.convertSingleTask t).toOption) := by
  induction ts with
  | nil => simp [JetBrainsToVSCode.convertLoop]
  | cons t ts ih =>
    cases hc : JetBrainsToVSCode.convertSingleTask t <;>
      simp [JetBrainsToVSCode.convertLoop, hc, ih, Except.toOption]

theorem vtjLoop_writes_of_all (d : String) (ts : List CTask)
    (h : ∀ t ∈ ts, startsWithStr t.taskType "vscode-task" = true) :
    (VSCodeToJetBrains.convertLoop d false ts).1 =
      ts.map (fun t =>
        (joinPath d (VSCodeToJetBrains.sanitizeFilename t.name ++ ".xml"),
         ({ configuration := VSCodeToJetBrains.convertSingleTask t } : JetBrainsComponent))) := by
  induction ts with
  | nil => simp [VSCodeToJetBrains.convertLoop]
  | cons t ts ih =>
    have ht := h t (by simp)
    have hrest : ∀ u ∈ ts, startsWithStr u.taskType "vscode-task" = true :=
      fun u hu => h u (by simp [hu])
    simp [VSCodeToJetBrains.convertLoop, ht, ih hrest]

/-- C4: converting IDE-run-configuration (JetBrains) kind tasks to the
build-task schema produces exactly one output file whose entry list is the
ordered sequence of successfully converted tasks, while converting
build-task (VSCode task) kind tasks to the run-configuration schema
produces one output file per task, in input order. -/
theorem merge_cardinality_order (root out : String) (tasksA tasksB : List CTask)
    (hA1 : tasksA ≠ []) (hA2 : ∀ t ∈ tasksA, t.taskType = TypeJetBrains)
    (hB : ∀ t ∈ tasksB, t.taskType = TypeVSCodeTask) :
    (∃ p file, (JetBrainsToVSCode.convertTasks root out tasksA false).writes = [(p, file)] ∧
        file.tasks =
          tasksA.filterMap (fun t => (JetBrainsToVSCode.convertSingleTask t).toOption)) ∧
    (VSCodeToJetBrains.convertTasks root out tasksB false).writes =
      tasksB.map (fun t =>
        (joinPath (VSCodeToJetBrains.outputDirOf root out)
          (VSCodeToJetBrains.sanitizeFilename t.name ++ ".xml"),
         { configuration := VSCodeToJetBrains.convertSingleTask t })) := by
  constructor
  · have hfilter : tasksA.filter (fun t => t.taskType = TypeJetBrains) = tasksA :=
      List.filter_eq_self.mpr (fun a ha => by simp [hA2 a ha])
    refine ⟨if out = "" then joinPath (joinPath root ".vscode") "tasks.json" else out,
      { version := "2.0.0", tasks := (JetBrainsToVSCode.convertLoop tasksA).1 }, ?_, ?_⟩
    · simp only [JetBrainsToVSCode.convertTasks, hfilter]
      simp [hA1]
    · simp [jbvLoop_eq_filterMap]
  · have hB2 : ∀ t ∈ tasksB, startsWithStr t.taskType "vscode-task" = true := by
      intro t ht
      rw [hB t ht]
      decide
    simp [VSCodeToJetBrains.convertTasks, vtjLoop_writes_of_all _ _ hB2]

/-- C4 witness at three concrete tasks of each kind. -/
theorem merge_cardinality_order_witness :
    (∃ p file,
        (JetBrainsToVSCode.convertTasks "/proj" "" threeJetBrainsTasks false).writes =
          [(p, file)] ∧
        file.tasks =
          threeJetBrainsTasks.filterMap
            (fun t => (JetBrainsToVSCode.convertSingleTask t).toOption)) ∧
    (VSCodeToJetBrains.convertTasks "/proj" "" threeVSCodeTasks false).writes =
      threeVSCodeTasks.map (fun t =>
        (joinPath (VSCodeToJetBrains.outputDirOf "/proj" "")
          (VSCodeToJetBrains.sanitizeFilename t.name ++ ".xml"),
         { configuration := VSCodeToJetBrains.convertSingleTask t })) :=
  merge_cardinality_order "/proj" "" threeJetBrainsTasks threeVSCodeTasks
    (by decide) (by decide) (by decide)

/-! ## C3 — skip, do not abort -/

theorem parseLaunchConfigs_append (root src : String) (l1 l2 : List VSCodeLaunchConfig) :
    LaunchParser.parseLaunchConfigs root src (l1 ++ l2) =
      LaunchParser.parseLaunchConfigs root src l1 ++ LaunchParser.parseLaunchConfigs root src l2 := by
  induction l1 with
  | nil => simp [LaunchParser.parseLaunchConfigs]
  | cons c l1 ih =>
    cases hc : LaunchParser.convertLaunchConfig root src c <;>
      simp [LaunchParser.parseLaunchConfigs, hc, ih]

/-- C3: an `attach`-request launch entry of any supported type yields a
per-entry error, and the parse of a file containing it returns exactly the
tasks of the other entries, in order — the bad entry is skipped, the parse
does not abort. -/
theorem parse_skips_attach (root src : String) (pre post : List VSCodeLaunchConfig)
    (cfg : VSCodeLaunchConfig) (hreq : cfg.request = "attach")
    (hty : cfg.launchType = "go" ∨ cfg.launchType = "node" ∨ cfg.launchType = "python") :
    (∃ msg, LaunchParser.convertLaunchConfig root src cfg = Except.error msg) ∧
    LaunchParser.parseLaunchConfigs root src (pre ++ cfg :: post) =
      LaunchParser.parseLaunchConfigs root src pre ++
        LaunchParser.parseLaunchConfigs root src post := by
  have herr : ∃ msg, LaunchParser.convertLaunchConfig root src cfg = Except.error msg := by
    rcases hty with h | h | h
    · exact ⟨"go attach mode not yet supported",
        by simp [LaunchParser.convertLaunchConfig, h, hreq, LaunchParser.handleGoLaunchConfig]⟩
    · exact ⟨"node.js attach mode not yet supported",
        by simp [LaunchParser.convertLaunchConfig, h, hreq, LaunchParser.handleNodeLaunchConfig]⟩
    · exact ⟨"python attach mode not yet supported",
        by simp [LaunchParser.convertLaunchConfig, h, hreq, LaunchParser.handlePythonLaunchConfig]⟩
  refine ⟨herr, ?_⟩
  rcases herr with ⟨msg, hmsg⟩
  rw [parseLaunchConfigs_append]
  simp [LaunchParser.parseLaunchConfigs, hmsg]

/-- C3 witness: a file with a good entry on each side of an attach entry. -/
theorem parse_skips_attach_witness :
    (∃ msg, LaunchParser.convertLaunchConfig "/p" "f" goAttachCfg = Except.error msg) ∧
    LaunchParser.parseLaunchConfigs "/p" "f" ([goLaunchCfg] ++ goAttachCfg :: [goLaunchCfg]) =
      LaunchParser.parseLaunchConfigs "/p" "f" [goLaunchCfg] ++
        LaunchParser.parseLaunchConfigs "/p" "f" [goLaunchCfg] :=
  parse_skips_attach "/p" "f" [goLaunchCfg] [goLaunchCfg] goAttachCfg (by decide) (by decide)

/-! ## C7 — filename sanitization -/

theorem data_mk (l : List Char) : (String.mk l).data = l := rfl

theorem foldl_replace_eq_map (cs : List Char) (l : List Char) :
    cs.foldl replaceCharWithUnderscore l = l.map (applyReplacements cs) := by
  induction cs generalizing l with
  | nil =>
    simp only [List.foldl_nil]
    symm
    calc List.map (applyReplacements []) l = List.map id l :=
          List.map_congr_left (fun a _ => rfl)
      _ = l := List.map_id l
  | cons c cs ih =>
    rw [List.foldl_cons, ih, replaceCharWithUnderscore, List.map_map]
    rfl

theorem applyReplacements_not_mem (cs : List Char) (x : Char) (h : x ∉ cs) :
    applyReplacements cs x = x := by
  induction cs with
  | nil => rfl
  | cons c cs ih =>
    have hx : ¬x = c := fun he => h (by simp [he])
    have hstep : applyReplacements (c :: cs) x =
        applyReplacements cs (if x = c then '_' else x) := rfl
    rw [hstep, if_neg hx]
    exact ih (fun hm => h (by simp [hm]))

theorem applyReplacements_mem (cs : List Char) (x : Char) (hu : '_' ∉ cs) (h : x ∈ cs) :
    applyReplacements cs x = '_' := by
  induction cs with
  | nil => cases h
  | cons c cs ih =>
    have hstep : applyReplacements (c :: cs) x =
        applyReplacements cs (if x = c then '_' else x) := rfl
    by_cases hx : x = c
    · rw [hstep, if_pos hx]
      exact applyReplacements_not_mem cs '_' (fun hm => hu (by simp [hm]))
    · rw [hstep, if_neg hx]
      have hmem : x ∈ cs := by
        rcases List.mem_cons.mp h with h1 | h1
        · exact absurd h1 hx
        · exact h1
      exact ih (fun hm => hu (by simp [hm])) hmem

/-- The free-function sanitizer is the fold over the launch converter's
ten-character list (its nine characters followed by the space pass). -/
theorem sanitizeVSCode_as_fold (name : String) :
    VSCodeToJetBrains.sanitizeFilename name =
      String.mk
        (VSCodeLaunchToJetBrains.invalidFilenameChars.foldl replaceCharWithUnderscore name.data) := by
  have h9 : VSCodeLaunchToJetBrains.invalidFilenameChars =
      VSCodeToJetBrains.invalidFilenameChars ++ [spaceChar] := by decide
  rw [h9, List.foldl_append]
  rfl

theorem sanitizeLaunch_as_fold (name : String) :
    VSCodeLaunchToJetBrains.sanitizeFilename name =
      String.mk
        (VSCodeLaunchToJetBrains.invalidFilenameChars.foldl replaceCharWithUnderscore name.data) :=
  rfl

theorem fold_replace_idem (cs : List Char) (hu : '_' ∉ cs) (l : List Char) :
    cs.foldl replaceCharWithUnderscore (cs.foldl replaceCharWithUnderscore l) =
      cs.foldl replaceCharWithUnderscore l := by
  rw [foldl_replace_eq_map, foldl_replace_eq_map, List.map_map]
  refine List.map_congr_left (fun c _ => ?_)
  show applyReplacements cs (applyReplacements cs c) = applyReplacements cs c
  by_cases h : c ∈ cs
  · rw [applyReplacements_mem _ _ hu h]
    exact applyReplacements_not_mem _ _ hu
  · rw [applyReplacements_not_mem _ _ h]
    exact applyReplacements_not_mem _ _ h

/-- C7 counterexample: `a:b` and `a?b` differ only in non-space
punctuation, yet both sanitize (in both copies of the function) to `a_b`. -/
theorem sanitizeFilename_collision :
    VSCodeToJetBrains.sanitizeFilename "a:b" = VSCodeToJetBrains.sanitizeFilename "a?b" ∧
    VSCodeLaunchToJetBrains.sanitizeFilename "a:b" =
      VSCodeLaunchToJetBrains.sanitizeFilename "a?b" ∧
    ("a:b" : String) ≠ "a?b" := by decide

/-- C7 (amended): both copies of `sanitizeFilename` are idempotent,
deterministic and equal to each other, and they are injective on names that
contain no character of the replaced set `/ \ : * ? " < > | space`
(distinct such names never collide); names differing only inside the
replaced set do collide, as the counterexample records. -/
theorem sanitizeFilename_idempotent_clean_injective :
    (∀ name : String,
      VSCodeToJetBrains.sanitizeFilename (VSCodeToJetBrains.sanitizeFilename name) =
          VSCodeToJetBrains.sanitizeFilename name ∧
        VSCodeLaunchToJetBrains.sanitizeFilename (VSCodeLaunchToJetBrains.sanitizeFilename name) =
          VSCodeLaunchToJetBrains.sanitizeFilename name ∧
        VSCodeLaunchToJetBrains.sanitizeFilename name = VSCodeToJetBrains.sanitizeFilename name) ∧
    (∀ n1 n2 : String,
      (∀ c ∈ n1.data, c ∉ VSCodeLaunchToJetBrains.invalidFilenameChars) →
      (∀ c ∈ n2.data, c ∉ VSCodeLaunchToJetBrains.invalidFilenameChars) →
      VSCodeToJetBrains.sanitizeFilename n1 = VSCodeToJetBrains.sanitizeFilename n2 → n1 = n2) := by
  have hu : '_' ∉ VSCodeLaunchToJetBrains.invalidFilenameChars := by decide
  constructor
  · intro name
    refine ⟨?_, ?_, ?_⟩
    · simp only [sanitizeVSCode_as_fold, data_mk]
      exact congrArg String.mk (fold_replace_idem _ hu name.data)
    · simp only [sanitizeLaunch_as_fold, data_mk]
      exact congrArg String.mk (fold_replace_idem _ hu name.data)
    · rw [sanitizeLaunch_as_fold, sanitizeVSCode_as_fold]
  · intro n1 n2 h1 h2 heq
    rw [sanitizeVSCode_as_fold, sanitizeVSCode_as_fold] at heq
    have heq2 :
        VSCodeLaunchToJetBrains.invalidFilenameChars.foldl replaceCharWithUnderscore n1.data =
          VSCodeLaunchToJetBrains.invalidFilenameChars.foldl replaceCharWithUnderscore n2.data :=
      congrArg String.data heq
    have e1 :
        VSCodeLaunchToJetBrains.invalidFilenameChars.foldl replaceCharWithUnderscore n1.data =
          n1.data := by
      rw [foldl_replace_eq_map]
      exact (List.map_congr_left
          (fun c hc => applyReplacements_not_mem _ _ (h1 c hc))).trans (List.map_id n1.data)
    have e2 :
        VSCodeLaunchToJetBrains.invalidFilenameChars.foldl replaceCharWithUnderscore n2.data =
          n2.data := by
      rw [foldl_replace_eq_map]
      exact (List.map_congr_left
          (fun c hc => applyReplacements_not_mem _ _ (h2 c hc))).trans (List.map_id n2.data)
    rw [e1, e2] at heq2
    exact String.ext heq2

/-- C7 witness: idempotence at a concrete messy name and injectivity at
concrete clean names. -/
theorem sanitizeFilename_witness :
    (VSCodeToJetBrains.sanitizeFilename
        (VSCodeToJetBrains.sanitizeFilename "Test: Run All <Tests>") =
      VSCodeToJetBrains.sanitizeFilename "Test: Run All <Tests>" ∧
     VSCodeLaunchToJetBrains.sanitizeFilename
        (VSCodeLaunchToJetBrains.sanitizeFilename "Test: Run All <Tests>") =
      VSCodeLaunchToJetBrains.sanitizeFilename "Test: Run All <Tests>" ∧
     VSCodeLaunchToJetBrains.sanitizeFilename "Test: Run All <Tests>" =
      VSCodeToJetBrains.sanitizeFilename "Test: Run All <Tests>") ∧
    ("a.b" : String) = "a.b" :=
  ⟨sanitizeFilename_idempotent_clean_injective.1 "Test: Run All <Tests>",
   sanitizeFilename_idempotent_clean_injective.2 "a.b" "a.b" (by decide) (by decide) rfl⟩

/-! ## C8 — lossy placeholder round trips -/

/-- C8 counterexample: `${fileExtname}` has a forward mapping but no
backward mapping, so its round trip lands on the JetBrains token
`$FileExt$`, which is not any VSCode placeholder at all — in particular not
the canonical representative of its (singleton) class. -/
theorem placeholder_roundtrip_not_canonical :
    convertJetBrainsVariables (VSCodeToJetBrains.convertVSCodeVariables "${fileExtname}") =
      "$FileExt$" ∧
    ("$FileExt$" : String) ∉
      (["${workspaceFolder}", "${workspaceRoot}", "${file}", "${fileBasename}",
        "${fileDirname}", "${fileExtname}"] : List String) := by decide

/-- C8 (amended): the collapse facts hold — `${workspaceFolder}` and
`${workspaceRoot}` both translate to `$PROJECT_DIR$` (in both forward
tables), `$PROJECT_DIR$` and `$MODULE_DIR$` both back-translate to
`${workspaceFolder}` — and every token with mappings in both directions
round-trips to the canonical representative of its class
(`${workspaceRoot}` comes back as `${workspaceFolder}`, `$MODULE_DIR$`
comes back as `$PROJECT_DIR$`, all others return to themselves); only the
forward-only tokens (`${fileExtname}`, `${relativeFile}`) escape the
source alphabet, as the counterexample records. -/
theorem placeholder_collapse_roundtrip :
    VSCodeToJetBrains.convertVSCodeVariables "${workspaceFolder}" = "$PROJECT_DIR$" ∧
    VSCodeToJetBrains.convertVSCodeVariables "${workspaceRoot}" = "$PROJECT_DIR$" ∧
    VSCodeLaunchToJetBrains.convertVSCodeVariables "${workspaceFolder}" = "$PROJECT_DIR$" ∧
    VSCodeLaunchToJetBrains.convertVSCodeVariables "${workspaceRoot}" = "$PROJECT_DIR$" ∧
    convertJetBrainsVariables "$PROJECT_DIR$" = "${workspaceFolder}" ∧
    convertJetBrainsVariables "$MODULE_DIR$" = "${workspaceFolder}" ∧
    convertJetBrainsVariables (VSCodeToJetBrains.convertVSCodeVariables "${workspaceRoot}") =
      "${workspaceFolder}" ∧
    ("${workspaceFolder}" : String) ≠ "${workspaceRoot}" ∧
    convertJetBrainsVariables (VSCodeToJetBrains.convertVSCodeVariables "${workspaceFolder}") =
      "${workspaceFolder}" ∧
    convertJetBrainsVariables (VSCodeToJetBrains.convertVSCodeVariables "${file}") = "${file}" ∧
    convertJetBrainsVariables (VSCodeToJetBrains.convertVSCodeVariables "${fileBasename}") =
      "${fileBasename}" ∧
    convertJetBrainsVariables (VSCodeToJetBrains.convertVSCodeVariables "${fileDirname}") =
      "${fileDirname}" ∧
    VSCodeToJetBrains.convertVSCodeVariables (convertJetBrainsVariables "$MODULE_DIR$") =
      "$PROJECT_DIR$" ∧
    ("$PROJECT_DIR$" : String) ≠ "$MODULE_DIR$" ∧
    VSCodeToJetBrains.convertVSCodeVariables (convertJetBrainsVariables "$PROJECT_DIR$") =
      "$PROJECT_DIR$" ∧
    VSCodeToJetBrains.convertVSCodeVariables (convertJetBrainsVariables "$FileDir$") =
      "$FileDir$" ∧
    VSCodeToJetBrains.convertVSCodeVariables (convertJetBrainsVariables "$FileName$") =
      "$FileName$" ∧
    VSCodeToJetBrains.convertVSCodeVariables (convertJetBrainsVariables "$FilePath$") =
      "$FilePath$" := by decide

/-! ## C6 — classifier hint precedence -/

/-- C6 counterexample: the description carries the explicit `node launch`
hint, but the classifier returns the Go category because the command
pattern of the earlier go-case matches — the hint does not take precedence
over command-string matching. -/
theorem classifier_hint_counterexample :
    containsStr nodeHintGoCommandTask.description "node launch" = true ∧
    VSCodeLaunchToJetBrains.determineJetBrainsConfigType nodeHintGoCommandTask =
      "GoApplicationRunConfiguration" ∧
    ("GoApplicationRunConfiguration" : String) ≠ "NodeJSConfigurationType" := by decide

/-- C6 (amended): in `determineJetBrainsConfigType` the description hint is
one disjunct beside the command patterns of the same category, and the
categories are tried in the fixed order go, node, python, java: a `go
launch` hint always wins (go is first); a `node launch` (resp. `python
launch`) hint wins exactly when no earlier category's hint or command test
fires; and `determineConfigType` of the tasks converter ignores the
description entirely, classifying by command only. -/
theorem classifier_hint_order (t : CTask) :
    (containsStr (toLowerStr t.description) "go launch" = true →
      VSCodeLaunchToJetBrains.determineJetBrainsConfigType t = "GoApplicationRunConfiguration") ∧
    (containsStr (toLowerStr t.description) "node launch" = true →
      containsStr (toLowerStr t.description) "go launch" = false →
      containsStr (toLowerStr t.description) "go attach" = false →
      ¬toLowerStr t.command = "go" →
      VSCodeLaunchToJetBrains.determineJetBrainsConfigType t = "NodeJSConfigurationType") ∧
    (containsStr (toLowerStr t.description) "python launch" = true →
      containsStr (toLowerStr t.description) "go launch" = false →
      containsStr (toLowerStr t.description) "go attach" = false →
      ¬toLowerStr t.command = "go" →
      containsStr (toLowerStr t.description) "node launch" = false →
      containsStr (toLowerStr t.description) "node attach" = false →
      ¬toLowerStr t.command = "node" →
      containsStr t.command ".js" = false →
      containsStr t.command ".ts" = false →
      VSCodeLaunchToJetBrains.determineJetBrainsConfigType t = "PythonConfigurationType") ∧
    (∀ d : String,
      VSCodeToJetBrains.determineConfigType { t with description := d } =
        VSCodeToJetBrains.determineConfigType t) := by
  refine ⟨?_, ?_, ?_, fun d => rfl⟩
  · intro h1
    simp [VSCodeLaunchToJetBrains.determineJetBrainsConfigType, h1]
  · intro h1 h2 h3 h4
    simp [VSCodeLaunchToJetBrains.determineJetBrainsConfigType, h1, h2, h3, h4]
  · intro h1 h2 h3 h4 h5 h6 h7 h8 h9
    simp [VSCodeLaunchToJetBrains.determineJetBrainsConfigType, h1, h2, h3, h4, h5, h6, h7, h8, h9]

/-- C6 witness: the three hint cases at concrete tasks. -/
theorem classifier_hint_order_witness :
    VSCodeLaunchToJetBrains.determineJetBrainsConfigType
        { name := "g", command := "dlv", description := "go launch configuration" } =
      "GoApplicationRunConfiguration" ∧
    VSCodeLaunchToJetBrains.determineJetBrainsConfigType
        { name := "n", command := "python", description := "node launch configuration" } =
      "NodeJSConfigurationType" ∧
    VSCodeLaunchToJetBrains.determineJetBrainsConfigType
        { name := "p", command := "java", description := "python launch configuration" } =
      "PythonConfigurationType" :=
  ⟨(classifier_hint_order
      { name := "g", command := "dlv", description := "go launch configuration" }).1 (by decide),
   (classifier_hint_order
      { name := "n", command := "python", description := "node launch configuration" }).2.1
     (by decide) (by decide) (by decide) (by decide),
   (classifier_hint_order
      { name := "p", command := "java", description := "python launch configuration" }).2.2.1
     (by decide) (by decide) (by decide) (by decide) (by decide) (by decide) (by decide)
     (by decide) (by decide)⟩

/-! ## C1 — round-trip type stability -/

theorem extractMainClassAux_ne_empty :
    ∀ args : List String, VSCodeToJetBrains.extractMainClassAux args ≠ ""
  | [] => by decide
  | arg :: rest => by
    unfold VSCodeToJetBrains.extractMainClassAux
    by_cases h1 : (containsStr arg "." && !startsWithStr arg "-") = true
    · rw [if_pos h1]
      intro he
      rw [he] at h1
      revert h1
      decide
    · rw [if_neg h1]
      by_cases h2 : (arg = "-cp" || arg = "--class-path") = true
      · rw [if_pos h2]
        cases rest with
        | nil => decide
        | cons b rest2 => exact extractMainClassAux_ne_empty rest2
      · rw [if_neg h2]
        exact extractMainClassAux_ne_empty rest

/-- C1 counterexample: a build task whose command is `gradle` converts to a
JetBrains configuration of type `GradleRunTask`, which the JetBrains parser
rejects as unsupported (it accepts only `Application` and
`GradleRunConfiguration`) — re-parsing fails, so the build-tool category
does not survive the round trip. -/
theorem gradle_roundtrip_counterexample :
    VSCodeToJetBrains.determineConfigType gradleBuildTask = "GradleRunTask" ∧
    RunConfigurationParser.convertRunConfiguration "/proj" "f"
        (VSCodeToJetBrains.convertSingleTask gradleBuildTask) =
      Except.error "unsupported JetBrains configuration type: GradleRunTask" := by decide

/-- C1 (amended): round-trip type stability holds for the
compiled-application category: any task whose command lowercases to `java`
is classified `Application`, its converted configuration is accepted by the
JetBrains parser, and the re-parsed task has command `java` and is
classified `Application` again.  For the build-tool and scripted categories
the emitted types (`GradleRunTask`, `NodeJS`, `PythonConfigurationType`,
`ShellScript`) are not accepted by `convertRunConfiguration`, so those
round trips fail, as the counterexample records. -/
theorem java_roundtrip_type_stable (root src : String) (task : CTask)
    (h : toLowerStr task.command = "java") :
    VSCodeToJetBrains.determineConfigType task = "Application" ∧
    ∃ t, RunConfigurationParser.convertRunConfiguration root src
          (VSCodeToJetBrains.convertSingleTask task) = Except.ok t ∧
        t.command = "java" ∧
        VSCodeToJetBrains.determineConfigType t = "Application" := by
  have hclass : VSCodeToJetBrains.determineConfigType task = "Application" := by
    simp [VSCodeToJetBrains.determineConfigType, h]
  have hmc : ¬VSCodeToJetBrains.extractMainClassAux task.args = "" :=
    extractMainClassAux_ne_empty task.args
  have hjava : ∀ u : CTask, u.command = "java" →
      VSCodeToJetBrains.determineConfigType u = "Application" := by
    intro u hu
    have hj : toLowerStr "java" = "java" := by decide
    simp [VSCodeToJetBrains.determineConfigType, hu, hj]
  refine ⟨hclass, ?_⟩
  by_cases hlen : task.args.length > 0
  · simp [RunConfigurationParser.convertRunConfiguration,
      VSCodeToJetBrains.convertSingleTask, hclass, hlen,
      RunConfigurationParser.handleApplicationConfig, RunConfigurationParser.scanAppOptions,
      VSCodeToJetBrains.extractMainClass, hmc]
    constructor
    · repeat' split
      all_goals rfl
    · apply hjava
      repeat' split
      all_goals rfl
  · simp [RunConfigurationParser.convertRunConfiguration,
      VSCodeToJetBrains.convertSingleTask, hclass, hlen,
      RunConfigurationParser.handleApplicationConfig, RunConfigurationParser.scanAppOptions,
      VSCodeToJetBrains.extractMainClass, hmc]
    constructor
    · repeat' split
      all_goals rfl
    · apply hjava
      repeat' split
      all_goals rfl

/-- C1 witness: the round trip at a concrete Java task. -/
theorem java_roundtrip_type_stable_witness :
    VSCodeToJetBrains.determineConfigType javaRunTask = "Application" ∧
    ∃ t, RunConfigurationParser.convertRunConfiguration "/proj" "f"
          (VSCodeToJetBrains.convertSingleTask javaRunTask) = Except.ok t ∧
        t.command = "java" ∧
        VSCodeToJetBrains.determineConfigType t = "Application" :=
  java_roundtrip_type_stable "/proj" "f" javaRunTask (by decide)

/-! ## C10 — deterministic, sorted environment emission -/

theorem lookupEnv_perm {l1 l2 : List (String × String)} (hp : l1.Perm l2) :
    (l1.map Prod.fst).Nodup → ∀ k, lookupEnv l1 k = lookupEnv l2 k := by
  induction hp with
  | nil => intro _ _; rfl
  | cons x p ih =>
    intro hnd k
    rw [List.map_cons, List.nodup_cons] at hnd
    by_cases hx : x.1 = k <;> simp [lookupEnv, hx, ih hnd.2 k]
  | swap x y l =>
    intro hnd k
    rw [List.map_cons, List.map_cons, List.nodup_cons] at hnd
    have hxy : ¬y.1 = x.1 := fun he => hnd.1 (by simp [he])
    by_cases hy : y.1 = k <;> by_cases hx : x.1 = k <;> simp [lookupEnv, hx, hy]
    exact absurd (hy.trans hx.symm) hxy
  | trans p1 p2 ih1 ih2 =>
    intro hnd k
    have hnd2 := ((p1.map Prod.fst).nodup_iff).mp hnd
    rw [ih1 hnd k, ih2 hnd2 k]

/-- C10: when a VSCode launch task with a non-empty environment converts
successfully, the emitted env entries are keyed by the sorted key list
(ascending), hence sorted by variable name; and the whole conversion result
is invariant under permuting the environment association list (the model of
Go's unspecified map iteration order), so the serialized configuration is
deterministic. -/
theorem env_emission_sorted_deterministic (task : CTask) :
    (∀ cfg, VSCodeLaunchToJetBrains.convertSingleLaunchConfig task = Except.ok cfg →
      task.env ≠ [] →
      ∃ pairs, cfg.envVars = some pairs ∧
        pairs.map Prod.fst =
          List.insertionSort (fun a b : String => a ≤ b) (task.env.map Prod.fst) ∧
        (pairs.map Prod.fst).Sorted (· ≤ ·)) ∧
    (∀ env2 : List (String × String), task.env.Perm env2 →
      (task.env.map Prod.fst).Nodup →
      VSCodeLaunchToJetBrains.convertSingleLaunchConfig { task with env := env2 } =
        VSCodeLaunchToJetBrains.convertSingleLaunchConfig task) := by
  haveI hTot : IsTotal String (fun a b : String => a ≤ b) := ⟨le_total⟩
  haveI hTrans : IsTrans String (fun a b : String => a ≤ b) := ⟨fun _ _ _ => le_trans⟩
  haveI hAnti : IsAntisymm String (fun a b : String => a ≤ b) := ⟨fun _ _ => le_antisymm⟩
  constructor
  · intro cfg hok hne
    have hlen : task.env.length > 0 := List.length_pos.mpr hne
    cases haco : VSCodeLaunchToJetBrains.addConfigurationOptions task
        (VSCodeLaunchToJetBrains.determineJetBrainsConfigType task) with
    | error e =>
      rw [VSCodeLaunchToJetBrains.convertSingleLaunchConfig, haco] at hok
      cases hok
    | ok opts =>
      rw [VSCodeLaunchToJetBrains.convertSingleLaunchConfig, haco] at hok
      have hcfg := (Except.ok.injEq _ _).mp hok
      refine ⟨(List.insertionSort (fun a b : String => a ≤ b) (task.env.map Prod.fst)).map
        (fun k => (k, VSCodeLaunchToJetBrains.convertVSCodeVariables (lookupEnv task.env k))),
        ?_, ?_, ?_⟩
      · rw [← hcfg]
        simp [hlen]
      · rw [List.map_map]
        exact (List.map_congr_left (fun k _ => rfl)).trans (List.map_id _)
      · rw [List.map_map]
        have hmapid :
            ((List.insertionSort (fun a b : String => a ≤ b) (task.env.map Prod.fst)).map
              (Prod.fst ∘ fun k =>
                (k, VSCodeLaunchToJetBrains.convertVSCodeVariables (lookupEnv task.env k)))) =
              List.insertionSort (fun a b : String => a ≤ b) (task.env.map Prod.fst) :=
          (List.map_congr_left (fun k _ => rfl)).trans (List.map_id _)
        rw [hmapid]
        exact List.sorted_insertionSort _ _
  · intro env2 hperm hnodup
    have key : VSCodeLaunchToJetBrains.addConfigurationOptions { task with env := env2 }
        (VSCodeLaunchToJetBrains.determineJetBrainsConfigType { task with env := env2 }) =
        VSCodeLaunchToJetBrains.addConfigurationOptions task
          (VSCodeLaunchToJetBrains.determineJetBrainsConfigType task) := rfl
    have hlen2 : env2.length = task.env.length := hperm.length_eq.symm
    have hkeys : List.insertionSort (fun a b : String => a ≤ b) (env2.map Prod.fst) =
        List.insertionSort (fun a b : String => a ≤ b) (task.env.map Prod.fst) := by
      refine List.eq_of_perm_of_sorted ?_ (List.sorted_insertionSort _ _)
        (List.sorted_insertionSort _ _)
      exact ((List.perm_insertionSort _ _).trans (hperm.symm.map Prod.fst)).trans
        (List.perm_insertionSort _ _).symm
    have hlook : ∀ k, lookupEnv env2 k = lookupEnv task.env k :=
      fun k => (lookupEnv_perm hperm hnodup k).symm
    rw [VSCodeLaunchToJetBrains.convertSingleLaunchConfig,
      VSCodeLaunchToJetBrains.convertSingleLaunchConfig, key]
    cases haco : VSCodeLaunchToJetBrains.addConfigurationOptions task
        (VSCodeLaunchToJetBrains.determineJetBrainsConfigType task) with
    | error e => rfl
    | ok opts =>
      simp only [hlen2, hkeys]
      by_cases h : task.env.length > 0 <;> simp only [h, if_true, if_false, gt_iff_lt]
      · refine congrArg Except.ok ?_
        congr 1
        refine congrArg some (List.map_congr_left (fun k _ => ?_))
        rw [hlook k]
      · rfl

/-- C10 witness: determinism of the conversion at a concrete task under a
concrete permutation of its environment. -/
theorem env_emission_sorted_deterministic_witness :
    VSCodeLaunchToJetBrains.convertSingleLaunchConfig
        { envLaunchTask with env := [("A", "2"), ("B", "1")] } =
      VSCodeLaunchToJetBrains.convertSingleLaunchConfig envLaunchTask :=
  (env_emission_sorted_deterministic envLaunchTask).2 [("A", "2"), ("B", "1")]
    (by decide) (by decide)

/-! ## C9 — quote-aware parameter splitting -/

theorem parseParametersAux_qc_irrel :
    ∀ (l cur : List Char) (qc qc2 : Char),
      parseParametersAux l false qc cur = parseParametersAux l false qc2 cur
  | [], _, _, _ => rfl
  | c :: rest, cur, qc, qc2 => by
    by_cases hd : c = dquoteChar
    · subst hd
      simp [parseParametersAux]
    · by_cases hs : c = squoteChar
      · subst hs
        simp [parseParametersAux]
      · by_cases hsp : c = spaceChar
        · subst hsp
          by_cases hc : cur = []
          · simp [parseParametersAux, hd, hs, hc,
              parseParametersAux_qc_irrel rest [] qc qc2]
          · simp [parseParametersAux, hd, hs, hc,
              parseParametersAux_qc_irrel rest [] qc qc2]
        · simp [parseParametersAux, hd, hs, hsp,
            parseParametersAux_qc_irrel rest (cur ++ [c]) qc qc2]

theorem parseParametersAux_quoted (q : Char) (body : List Char)
    (hbody : ∀ c ∈ body, ¬c = q) :
    ∀ rest cur : List Char,
      parseParametersAux (body ++ q :: rest) true q cur =
        parseParametersAux rest false q (cur ++ body) := by
  induction body with
  | nil => intro rest cur; simp [parseParametersAux]
  | cons b body ih =>
    intro rest cur
    have hb : ¬b = q := hbody b (by simp)
    have hrest : ∀ c ∈ body, ¬c = q := fun c hc => hbody c (by simp [hc])
    simp [parseParametersAux, hb, ih hrest, List.append_assoc]

theorem parseParametersAux_plain (s : List Char)
    (hs : ∀ c ∈ s, ¬c = spaceChar ∧ ¬c = dquoteChar ∧ ¬c = squoteChar) :
    ∀ (rest cur : List Char) (qc : Char),
      parseParametersAux (s ++ rest) false qc cur =
        parseParametersAux rest false qc (cur ++ s) := by
  induction s with
  | nil => intro rest cur qc; simp
  | cons b s ih =>
    intro rest cur qc
    obtain ⟨h1, h2, h3⟩ := hs b (by simp)
    have hrest : ∀ c ∈ s, ¬c = spaceChar ∧ ¬c = dquoteChar ∧ ¬c = squoteChar :=
      fun c hc => hs c (by simp [hc])
    simp [parseParametersAux, h1, h2, h3, ih hrest, List.append_assoc]

theorem parseParametersAux_chunk (ch : Chunk) (hok : chunkOKb ch = true) :
    ∀ (rest cur : List Char) (qc : Char),
      parseParametersAux (renderChunk ch ++ rest) false qc cur =
        parseParametersAux rest false qc (cur ++ chunkContent ch) := by
  cases ch with
  | plain s =>
    intro rest cur qc
    simp only [chunkOKb, Bool.and_eq_true, List.all_eq_true] at hok
    refine parseParametersAux_plain s (fun c hc => ?_) rest cur qc
    have := hok.2 c hc
    revert this
    simp
    tauto
  | quoted q body =>
    intro rest cur qc
    simp only [chunkOKb, Bool.and_eq_true, List.all_eq_true] at hok
    have hq : (decide (q = dquoteChar) || decide (q = squoteChar)) = true := hok.1
    have hbody : ∀ c ∈ body, ¬c = q := by
      intro c hc
      have := hok.2 c hc
      revert this
      simp
    show parseParametersAux (q :: (body ++ [q]) ++ rest) false qc cur = _
    rw [List.cons_append, List.append_assoc, List.singleton_append]
    calc parseParametersAux (q :: (body ++ q :: rest)) false qc cur
        = parseParametersAux (body ++ q :: rest) true q cur := by
          simp [parseParametersAux, hq]
      _ = parseParametersAux rest false q (cur ++ body) :=
          parseParametersAux_quoted q body hbody rest cur
      _ = parseParametersAux rest false qc (cur ++ body) :=
          parseParametersAux_qc_irrel rest (cur ++ body) q qc

theorem parseParametersAux_arg (a : List Chunk) (hok : a.all chunkOKb = true) :
    ∀ (rest cur : List Char) (qc : Char),
      parseParametersAux (renderArg a ++ rest) false qc cur =
        parseParametersAux rest false qc (cur ++ argContent a) := by
  induction a with
  | nil => intro rest cur qc; simp [renderArg, argContent]
  | cons ch a ih =>
    intro rest cur qc
    have hch : chunkOKb ch = true := (List.all_eq_true.mp hok) ch (by simp)
    have ha : a.all chunkOKb = true :=
      List.all_eq_true.mpr (fun x hx => (List.all_eq_true.mp hok) x (by simp [hx]))
    have hr : renderArg (ch :: a) = renderChunk ch ++ renderArg a := by
      simp [renderArg]
    have hc : argContent (ch :: a) = chunkContent ch ++ argContent a := by
      simp [argContent]
    rw [hr, hc, List.append_assoc, parseParametersAux_chunk ch hch, ih ha,
      List.append_assoc]

theorem renderArg_ne_nil (a : List Chunk) (hok : argOKb a = true) : ¬renderArg a = [] := by
  simp only [argOKb, Bool.and_eq_true] at hok
  have hne := hok.2
  cases a with
  | nil =>
    revert hne
    simp [argContent]
  | cons ch a =>
    have hch : chunkOKb ch = true := (List.all_eq_true.mp hok.1) ch (by simp)
    have hr : renderArg (ch :: a) = renderChunk ch ++ renderArg a := by
      simp [renderArg]
    rw [hr]
    cases ch with
    | plain s =>
      simp only [chunkOKb, Bool.and_eq_true] at hch
      have hs : ¬s = [] := by
        have := hch.1
        revert this
        simp
      simp [renderChunk]
      intro he _
      exact hs he
    | quoted q body =>
      simp [renderChunk]

theorem parseParametersAux_args :
    ∀ (args : List (List Chunk)), args.all argOKb = true → ∀ qc : Char,
      parseParametersAux (renderArgs args) false qc [] = args.map argContent
  | [], _, _ => rfl
  | [a], hok, qc => by
    have hok2 : argOKb a = true := by simpa using hok
    simp only [argOKb, Bool.and_eq_true] at hok2
    have ha : a.all chunkOKb = true := hok2.1
    have hne : ¬argContent a = [] := by
      have h2 := hok2.2
      revert h2
      simp
    show parseParametersAux (renderArg a) false qc [] = [argContent a]
    rw [← List.append_nil (renderArg a), parseParametersAux_arg a ha [] [] qc]
    simp [parseParametersAux, hne]
  | a :: b :: args, hok, qc => by
    have hoka : argOKb a = true := (List.all_eq_true.mp hok) a (by simp)
    simp only [argOKb, Bool.and_eq_true] at hoka
    have ha : a.all chunkOKb = true := hoka.1
    have hne : ¬argContent a = [] := by
      have h2 := hoka.2
      revert h2
      simp
    have hrest : (b :: args).all argOKb = true :=
      List.all_eq_true.mpr (fun x hx => (List.all_eq_true.mp hok) x (by simp at hx ⊢; tauto))
    show parseParametersAux (renderArg a ++ spaceChar :: renderArgs (b :: args))
        false qc [] = argContent a :: (b :: args).map argContent
    rw [parseParametersAux_arg a ha _ [] qc]
    simp only [List.nil_append]
    have hd : ¬spaceChar = dquoteChar := by decide
    have hs : ¬spaceChar = squoteChar := by decide
    have hspace : parseParametersAux (spaceChar :: renderArgs (b :: args)) false qc
        (argContent a) =
        argContent a :: parseParametersAux (renderArgs (b :: args)) false qc [] := by
      simp [parseParametersAux, hne, hd, hs]
    rw [hspace, parseParametersAux_args (b :: args) hrest qc]

theorem parseParametersAux_ne_nil :
    ∀ (l : List Char) (inQ : Bool) (qc : Char) (cur : List Char),
      ∀ x ∈ parseParametersAux l inQ qc cur, ¬x = []
  | [], inQ, qc, cur => by
    intro x hx
    by_cases hc : cur = []
    · simp [parseParametersAux, hc] at hx
    · simp [parseParametersAux, hc] at hx
      rw [hx]
      exact hc
  | c :: rest, inQ, qc, cur => by
    intro x hx
    unfold parseParametersAux at hx
    split_ifs at hx with h1 h2 h3 h4
    · exact parseParametersAux_ne_nil rest true c cur x hx
    · exact parseParametersAux_ne_nil rest false qc cur x hx
    · exact parseParametersAux_ne_nil rest false qc [] x hx
    · rcases List.mem_cons.mp hx with he | hm
      · rw [he]; exact h4
      · exact parseParametersAux_ne_nil rest false qc [] x hm
    · exact parseParametersAux_ne_nil rest inQ qc (cur ++ [c]) x hx

/-- C9: `parseParameters` returns `nil` on the empty string, never returns
an empty-string element, and on any single-space-separated sequence of
well-formed arguments (unquoted runs mixed with quoted regions) it returns
exactly the argument contents, in order, with the delimiting quotes removed
and spaces inside quotes preserved. -/
theorem parseParameters_spec :
    parseParameters "" = [] ∧
    (∀ s : String, ¬("" ∈ parseParameters s)) ∧
    (∀ args : List (List Chunk), args.all argOKb = true →
      parseParameters (String.mk (renderArgs args)) =
        args.map (fun a => String.mk (argContent a))) := by
  refine ⟨rfl, ?_, ?_⟩
  · intro s hmem
    by_cases hs : s = ""
    · rw [hs] at hmem
      simp [parseParameters] at hmem
    · rw [parseParameters, if_neg hs] at hmem
      rcases List.mem_map.mp hmem with ⟨x, hx, hxe⟩
      have hxne := parseParametersAux_ne_nil s.data false nulChar [] x hx
      exact hxne (congrArg String.data hxe.symm).symm
  · intro args hok
    cases hargs : args with
    | nil => rfl
    | cons a rest =>
      have hne : ¬String.mk (renderArgs (a :: rest)) = "" := by
        intro he
        have hdata : renderArgs (a :: rest) = [] := congrArg String.data he
        have hokA : argOKb a = true := by
          rw [hargs] at hok
          exact (List.all_eq_true.mp hok) a (by simp)
        cases rest with
        | nil => exact renderArg_ne_nil a hokA hdata
        | cons b rest2 =>
          rw [show renderArgs (a :: b :: rest2) =
              renderArg a ++ spaceChar :: renderArgs (b :: rest2) from rfl] at hdata
          simp at hdata
      rw [parseParameters, if_neg hne, data_mk]
      rw [parseParametersAux_args (a :: rest) (hargs ▸ hok) nulChar]
      rw [List.map_map]
      rfl

/-- C9 witness: the specification at the concrete chunk list
`a`, `b" c"`, `'d e'`. -/
theorem parseParameters_spec_witness :
    parseParameters (String.mk (renderArgs paramSpecArgs)) =
      paramSpecArgs.map (fun a => String.mk (argContent a)) :=
  parseParameters_spec.2.2 paramSpecArgs (by decide)

/-! ## C2 — comment-stripping correctness -/

theorem stripSM_items (items : List StrItem) (h : items.all itemOKb = true) :
    ∀ tail : List Char,
      stripSM (.normal true false) ((items.map renderItem).flatten ++ tail) =
        (items.map renderItem).flatten ++ stripSM (.normal true false) tail := by
  induction items with
  | nil => intro tail; simp
  | cons it items ih =>
    intro tail
    have hit : itemOKb it = true := (List.all_eq_true.mp h) it (by simp)
    have hrest : items.all itemOKb = true :=
      List.all_eq_true.mpr (fun x hx => (List.all_eq_true.mp h) x (by simp [hx]))
    cases it with
    | norm c =>
      simp only [itemOKb, Bool.and_eq_true] at hit
      have h1 : ¬c = dquoteChar := by
        have := hit.1
        revert this
        simp
      have h2 : ¬c = bslashChar := by
        have := hit.2
        revert this
        simp
      simp [renderItem, stripSM, h1, h2, ih hrest tail]
    | esc c =>
      have hbd : ¬bslashChar = dquoteChar := by decide
      simp [renderItem, stripSM, hbd, ih hrest tail]

theorem stripSM_lit (items : List StrItem) (h : items.all itemOKb = true)
    (tail : List Char) :
    stripSM (.normal false false) (renderSeg (Seg.lit items) ++ tail) =
      eraseSeg (Seg.lit items) ++ stripSM (.normal false false) tail := by
  show stripSM (.normal false false)
      ((dquoteChar :: (items.map renderItem).flatten ++ [dquoteChar]) ++ tail) = _
  have hassoc : (dquoteChar :: (items.map renderItem).flatten ++ [dquoteChar]) ++ tail =
      dquoteChar :: ((items.map renderItem).flatten ++ (dquoteChar :: tail)) := by
    simp
  rw [hassoc]
  have h1 : stripSM (.normal false false)
      (dquoteChar :: ((items.map renderItem).flatten ++ (dquoteChar :: tail))) =
      dquoteChar :: stripSM (.normal true false)
        ((items.map renderItem).flatten ++ (dquoteChar :: tail)) := by
    simp [stripSM]
  rw [h1, stripSM_items items h (dquoteChar :: tail)]
  have h2 : stripSM (.normal true false) (dquoteChar :: tail) =
      dquoteChar :: stripSM (.normal false false) tail := by
    simp [stripSM]
  rw [h2]
  simp [eraseSeg]

theorem stripSM_lineSkip (body : List Char)
    (h : body.all (fun c => !(c = nlChar) && !(c = crChar)) = true) :
    ∀ l : List Char, stripSM .lineComment (body ++ l) = stripSM .lineComment l := by
  induction body with
  | nil => intro l; rfl
  | cons b body ih =>
    intro l
    have hb2 : ¬b = nlChar ∧ ¬b = crChar := by
      have hb := (List.all_eq_true.mp h) b (by simp)
      revert hb
      simp
    have hrest : body.all (fun c => !(c = nlChar) && !(c = crChar)) = true :=
      List.all_eq_true.mpr (fun x hx => (List.all_eq_true.mp h) x (by simp [hx]))
    simp [stripSM, hb2.1, hb2.2, ih hrest l]

theorem slash_ne_dquote : ¬('/' : Char) = dquoteChar := by decide

theorem star_ne_dquote : ¬('*' : Char) = dquoteChar := by decide

theorem slash_ne_nl : ¬('/' : Char) = nlChar := by decide

theorem slash_ne_cr : ¬('/' : Char) = crChar := by decide

theorem stripSM_copyFree (c : Char) (h1 : ¬c = dquoteChar) (tail : List Char)
    (hch : c = '/' → (¬tail.head? = some '/' ∧ ¬tail.head? = some '*')) :
    stripSM (.normal false false) (c :: tail) = c :: stripSM (.normal false false) tail := by
  by_cases hc : c = '/'
  · subst hc
    obtain ⟨h5, h6⟩ := hch rfl
    simp [stripSM, slash_ne_dquote, h5, h6]
  · simp [stripSM, h1, hc]

theorem stripSM_line (body : List Char)
    (hbody : body.all (fun c => !(c = nlChar) && !(c = crChar)) = true)
    (tail : List Char)
    (htail : tail = [] ∨ ∃ d rest2, tail = d :: rest2 ∧ (d = nlChar ∨ d = crChar)) :
    stripSM (.normal false false) (renderSeg (Seg.line body) ++ tail) =
      stripSM (.normal false false) tail := by
  show stripSM (.normal false false) ('/' :: '/' :: body ++ tail) = _
  have hstep : stripSM (.normal false false) ('/' :: '/' :: body ++ tail) =
      stripSM .lineComment ('/' :: (body ++ tail)) := by
    simp [stripSM, slash_ne_dquote]
  rw [hstep]
  have hstep2 : stripSM .lineComment ('/' :: (body ++ tail)) =
      stripSM .lineComment (body ++ tail) := by
    simp [stripSM, slash_ne_nl, slash_ne_cr]
  rw [hstep2, stripSM_lineSkip body hbody tail]
  rcases htail with he | ⟨d, rest2, he, hd⟩
  · rw [he]
    rfl
  · rw [he]
    have hdq : ¬d = dquoteChar := by
      rcases hd with h | h <;> rw [h] <;> decide
    have hds : ¬d = '/' := by
      rcases hd with h | h <;> rw [h] <;> decide
    have hline : stripSM .lineComment (d :: rest2) =
        d :: stripSM (.normal false false) rest2 := by
      rcases hd with h | h <;> simp [stripSM, h]
    rw [hline, stripSM_copyFree d hdq rest2 (fun hc => absurd hc hds)]

theorem hasCloseB_tail {b : Char} {l : List Char} (h : hasCloseB (b :: l) = false) :
    hasCloseB l = false ∧ (∀ e l2, l = e :: l2 → ¬(b = '*' ∧ e = '/')) := by
  cases l with
  | nil => exact ⟨rfl, fun e l2 he => by cases he⟩
  | cons e l2 =>
    have hh : ((decide (b = '*') && decide (e = '/')) || hasCloseB (e :: l2)) = false := h
    simp only [Bool.or_eq_false_iff, Bool.and_eq_false_iff] at hh
    refine ⟨hh.2, fun e2 l3 he => ?_⟩
    cases he
    rintro ⟨hb, he2⟩
    rcases hh.1 with h1 | h1 <;> revert h1 <;> simp [hb, he2]

theorem stripSM_blockStep (b : Char) (rest : List Char) (hne : ¬rest = [])
    (hnp : ¬(b = '*' ∧ rest.head? = some '/')) :
    stripSM .blockComment (b :: rest) = stripSM .blockComment rest := by
  have hh : ¬rest.head? = none := by
    cases rest with
    | nil => exact absurd rfl hne
    | cons d r => simp
  by_cases hb : b = '*'
  · have hslash : ¬rest.head? = some '/' := fun hcon => hnp ⟨hb, hcon⟩
    simp [stripSM, hb, hh, hslash]
  · simp [stripSM, hb, hh]

theorem stripSM_blockSkip (body : List Char) (h : hasCloseB body = false) :
    ∀ tail : List Char,
      stripSM .blockComment (body ++ '*' :: '/' :: tail) =
        stripSM (.normal false false) tail := by
  induction body with
  | nil => intro tail; simp [stripSM]
  | cons b body ih =>
    intro tail
    obtain ⟨htail, hpair⟩ := hasCloseB_tail h
    have hne : ¬body ++ '*' :: '/' :: tail = [] := by simp
    have hnp : ¬(b = '*' ∧ (body ++ '*' :: '/' :: tail).head? = some '/') := by
      cases body with
      | nil =>
        simp only [List.nil_append, List.head?_cons]
        rintro ⟨_, hcon⟩
        simp at hcon
      | cons e body2 =>
        simp only [List.cons_append, List.head?_cons]
        rintro ⟨hb, hcon⟩
        have he : e = '/' := by simpa using hcon
        exact hpair e body2 rfl ⟨hb, he⟩
    rw [List.cons_append, stripSM_blockStep b _ hne hnp, ih htail tail]

theorem stripSM_block (body : List Char) (h : hasCloseB body = false)
    (tail : List Char) :
    stripSM (.normal false false) (renderSeg (Seg.block body) ++ tail) =
      stripSM (.normal false false) tail := by
  show stripSM (.normal false false) ('/' :: '*' :: (body ++ ['*', '/']) ++ tail) = _
  have hassoc : ('/' : Char) :: '*' :: (body ++ ['*', '/']) ++ tail =
      '/' :: '*' :: (body ++ '*' :: '/' :: tail) := by
    simp
  rw [hassoc]
  have hstep : stripSM (.normal false false) ('/' :: '*' :: (body ++ '*' :: '/' :: tail)) =
      stripSM .blockCommentStart ('*' :: (body ++ '*' :: '/' :: tail)) := by
    simp [stripSM, slash_ne_dquote]
  rw [hstep]
  have hstep2 : stripSM .blockCommentStart ('*' :: (body ++ '*' :: '/' :: tail)) =
      stripSM .blockComment (body ++ '*' :: '/' :: tail) := by
    simp [stripSM]
  rw [hstep2, stripSM_blockSkip body h tail]

theorem renderSegs_cons (t : Seg) (r : List Seg) :
    renderSegs (t :: r) = renderSeg t ++ renderSegs r := by
  simp [renderSegs]

theorem renderSegs_head (t : Seg) (r : List Seg) :
    (renderSegs (t :: r)).head? = some (segHead t) := by
  rw [renderSegs_cons]
  cases t <;> simp [renderSeg, segHead]

theorem wfSegs_destruct {s : Seg} {rest : List Seg} (h : wfSegs (s :: rest) = true) :
    segOKb s = true ∧ wfSegs rest = true ∧
      (∀ t rest2, rest = t :: rest2 → chainOKb s t = true) := by
  cases rest with
  | nil =>
    exact ⟨h, rfl, fun t rest2 he => by cases he⟩
  | cons t rest2 =>
    have hh : ((segOKb s && chainOKb s t) && wfSegs (t :: rest2)) = true := h
    simp only [Bool.and_eq_true] at hh
    exact ⟨hh.1.1, hh.2, fun u rest3 he => by cases he; exact hh.1.2⟩

/-- C2: on every well-formed tokenisation of a JSON-with-comments document
(complete string literals with escape pairs, line comments, closed block
comments, free characters), `stripJSONComments` produces exactly the
erasure of the tokenisation: every double-quoted string literal is kept
byte-identical (escapes included), every `//` comment is removed up to its
terminating line break (which is kept), every `/* */` comment outside
string literals is removed, and every other character is unchanged. -/
theorem stripJSONComments_spec :
    ∀ segs : List Seg, wfSegs segs = true →
      stripJSONComments (renderSegs segs) = eraseSegs segs
  | [], _ => rfl
  | s :: rest, hwf => by
    obtain ⟨hok, hrest, hchain⟩ := wfSegs_destruct hwf
    have ih : stripSM (.normal false false) (renderSegs rest) = eraseSegs rest :=
      stripJSONComments_spec rest hrest
    show stripSM (.normal false false) (renderSegs (s :: rest)) = eraseSegs (s :: rest)
    rw [renderSegs_cons]
    have herase : eraseSegs (s :: rest) = eraseSeg s ++ eraseSegs rest := by
      simp [eraseSegs]
    rw [herase]
    cases s with
    | lit items =>
      rw [stripSM_lit items (by simpa [segOKb] using hok), ih]
    | line body =>
      have hbody : body.all (fun c => !(c = nlChar) && !(c = crChar)) = true := by
        simpa [segOKb] using hok
      have htail : renderSegs rest = [] ∨
          ∃ d rest2, renderSegs rest = d :: rest2 ∧ (d = nlChar ∨ d = crChar) := by
        cases rest with
        | nil => exact Or.inl rfl
        | cons t r2 =>
          refine Or.inr ?_
          have hCh : chainOKb (Seg.line body) t = true := hchain t r2 rfl
          have hhead := renderSegs_head t r2
          cases hrs : renderSegs (t :: r2) with
          | nil => rw [hrs] at hhead; cases hhead
          | cons d rest2 =>
            rw [hrs] at hhead
            have hd : d = segHead t := by simpa using hhead
            refine ⟨d, rest2, rfl, ?_⟩
            have hCh2 : (segHead t = nlChar ∨ segHead t = crChar) := by
              have := hCh
              revert this
              simp [chainOKb]
            rw [hd]
            exact hCh2
      rw [stripSM_line body hbody _ htail, ih]
      rfl
    | block body =>
      have hbody : hasCloseB body = false := by
        have := hok
        revert this
        simp [segOKb]
      rw [stripSM_block body hbody _, ih]
      rfl
    | free c =>
      have h1 : ¬c = dquoteChar := by
        have := hok
        revert this
        simp [segOKb]
      have hch : c = '/' →
          (¬(renderSegs rest).head? = some '/' ∧ ¬(renderSegs rest).head? = some '*') := by
        intro hc
        cases rest with
        | nil => simp [renderSegs]
        | cons t r2 =>
          have hCh : chainOKb (Seg.free c) t = true := hchain t r2 rfl
          rw [renderSegs_head t r2]
          subst hc
          have hCh2 : ¬segHead t = '/' ∧ ¬segHead t = '*' := by
            have := hCh
            revert this
            simp [chainOKb]
          constructor
          · intro hcon
            exact hCh2.1 (by simpa using hcon)
          · intro hcon
            exact hCh2.2 (by simpa using hcon)
      have hr : renderSeg (Seg.free c) ++ renderSegs rest = c :: renderSegs rest := rfl
      rw [hr, stripSM_copyFree c h1 _ hch, ih]
      rfl

/-- C2 witness: the specification at a concrete document containing a URL
string, an escaped quote, a line comment, and a block comment. -/
theorem stripJSONComments_spec_witness :
    stripJSONComments (renderSegs specSegs) = eraseSegs specSegs :=
  stripJSONComments_spec specSegs (by decide)
